import Mathlib

/-!
# Verification of the `cycle-events` Broker (src/src/Broker.js, src/index.js)

This file shallowly embeds the pub/sub `Broker` class of the repository and
proves/refutes the frozen claims about it.

## Modelling notes (traceability to the source)

* A broker's private registry (`data` WeakMap → per-instance `{keys, map}` in
  `src/src/Broker.js`) maps an event name to an ordered array of listeners.
  `info(ctx, event)` returns `map.get(key) || []`, i.e. lookup with default
  `[]`; `map.delete(key)` versus `map.set(key, [])` is unobservable through
  this lookup, so the registry is modelled as a function `String → List Nat`
  (JS functions are compared by identity; a listener identity is a `Nat`).
* Crucially for snapshot semantics, the lodash helpers used by the source
  (`concat`, `uniq`, `without`) all return *fresh* arrays, and `on`/`off`
  install the fresh array with `map.set`; `emit` iterates the array it fetched
  at the start of the call, so mutations during emission never affect the
  array being iterated.  A pure-functional embedding renders this exactly.
* `announce(event, args, callback)` runs
  `error = _.attempt(_.bind(callback, this, ...args))` and fires the `error`
  event when `_.isError(error)`.  lodash `attempt` is
  `try { return f() } catch (e) { return isError(e) ? e : new Error(e) }`:
  a thrown non-Error value is wrapped in an `Error`, so every throw yields an
  Error value; a *returned* Error value also satisfies `isError`.
* `one(event, callback)` builds
  `single = flow(() => callback(...arguments), () => this.off(event, single))`.
  Inside the arrow function, `arguments` is lexically the `arguments` object
  of `one` itself, i.e. `(event, callback)` — the compiled `src/index.js`
  (`_arguments = arguments`) confirms this.  So the wrapper invokes the
  callback with the subscription-time `(event, callback)` pair, not with the
  emitted arguments.  `flow` aborts when the first function throws, so the
  self-removal step is skipped on a throw.  `one` performs no validation of
  its own: it relies on `this.on(event, single)`, whose callback check sees
  the always-callable `single`, never the original `callback`.
* Listeners are arbitrary JS functions.  They are modelled as identities
  (`Nat`) bound in an environment to a `Behavior`: either a `base` function
  of the invocation count and the received arguments yielding a list of
  broker commands to perform plus a return/throw outcome, or the single-use
  `onceWrapper` closure created by `one`.
* The interpreter `run` is fuel-indexed (nested emission recurses in JS and
  is unbounded there; fuel exhaustion returns `none` and is an artifact of
  the embedding, never a behaviour of the code).  It appends observation
  entries to a trace: one `invoke` entry per function invocation and one
  `emitE` entry per `emit` call (user or lifecycle).  Each entry records the
  emission-nesting depth: a round run at depth `d` logs its emission and its
  direct listener invocations at depth `d`, and everything performed *inside*
  a listener body runs at depth `d + 1`.
-/

set_option maxRecDepth 4000

namespace CycleEvents

/-- JavaScript values, as far as the claims need them.  `vErr v` is an
`Error` instance carrying `v` (`new Error(v)` or a thrown `Error`);
`vPayload e c err` is the `{event, callback, error}` object fired on the
`error` event; `vPayload2 e c` is the `{event, callback}` object fired on
`listenerAdded` / `listenerRemoved`. -/
inductive JsVal where
  | vUndef : JsVal
  | vStr : String → JsVal
  | vNum : Nat → JsVal
  | vFun : Nat → JsVal
  | vErr : JsVal → JsVal
  | vPayload : String → Nat → JsVal → JsVal
  | vPayload2 : String → Nat → JsVal
deriving DecidableEq

instance : Inhabited JsVal := ⟨JsVal.vUndef⟩

/-- Result of running a listener body: normal return or a thrown value. -/
inductive Outcome where
  | ret : JsVal → Outcome
  | thr : JsVal → Outcome
deriving DecidableEq

instance : Inhabited Outcome := ⟨Outcome.ret JsVal.vUndef⟩

/-- Broker operations a listener body may perform on the broker instance
(`this.emit(...)`, `this.on(...)`, `this.off(...)`,
`this.removeAllListeners(...)`). -/
inductive Cmd where
  | cEmit : String → List JsVal → Cmd
  | cOn : String → Nat → Cmd
  | cOff : String → Nat → Cmd
  | cRemoveAll : String → Cmd

/-- The code of a registered function.  `base f`: a user listener whose
behaviour may depend on how many times it was invoked before and on the
arguments it receives; it performs broker commands and then returns or
throws.  `onceWrapper event callback` is the `single` closure created by
`Broker#one` (see the modelling notes: it invokes `callback` with
`(event, callback)` and removes itself only when that call returns). -/
inductive Behavior where
  | base : (Nat → List JsVal → List Cmd × Outcome) → Behavior
  | onceWrapper : String → JsVal → Behavior

/-- Observation-trace entries: `invoke d c args` — the function `c` was
invoked with `args` as a direct listener of an emission round at depth `d`
(or as a direct call at depth `d`); `emitE d e args` — an `emit(e, ...args)`
call started at depth `d`. -/
inductive TEntry where
  | invoke : Nat → Nat → List JsVal → TEntry
  | emitE : Nat → String → List JsVal → TEntry
deriving DecidableEq

/-- A broker state: the private registry, the function environment, the
per-function invocation counters (a modelling device permitting
history-dependent listener behaviour), a fresh-identity counter for closures
allocated by `one`, and the observation trace. -/
structure BState where
  registry : String → List Nat
  env : Nat → Option Behavior
  counts : Nat → Nat
  nextId : Nat
  trace : List TEntry

instance : Inhabited BState := ⟨⟨fun _ => [], fun _ => none, fun _ => 0, 0, []⟩⟩

/-- `'Parameter `event` must be a non-empty string.'` (EVENT_ERROR). -/
def eventErrMsg : String := "Parameter `event` must be a non-empty string."

/-- `'Parameter `callback` must be a function.'` (CALLBACK_ERROR). -/
def callbackErrMsg : String := "Parameter `callback` must be a function."

/-- `isString(event) && !isEmpty(trim(event))`, on an already-string value:
trimming removes leading and trailing whitespace, so the trimmed string is
non-empty exactly when some character of the string is not whitespace. -/
def validEv (e : String) : Bool := e.data.any (fun ch => !ch.isWhitespace)

/-- `isValidEvent`: the argument must be a string that is non-empty after
trimming. -/
def isValidEventV : JsVal → Bool
  | JsVal.vStr s => validEv s
  | _ => false

/-- `isValidCallback`: `isFunction(callback)`. -/
def isValidCallbackV : JsVal → Bool
  | JsVal.vFun _ => true
  | _ => false

/-- `_.isError`: true exactly on Error instances. -/
def isErrorV : JsVal → Bool
  | JsVal.vErr _ => true
  | _ => false

/-- The value `_.attempt` produces when the invoked function threw `v`:
the catch clause returns `isError(e) ? e : new Error(e)`. -/
def wrapE (v : JsVal) : JsVal := if isErrorV v then v else JsVal.vErr v

/-- Applied to the outcome of a listener call, yields the Error value that
makes `announce` fire the `error` event, if any: every throw yields one
(`attempt` wraps non-Errors), and a normal return yields one exactly when
the returned value is itself an Error. -/
def attemptErr : Outcome → Option JsVal
  | Outcome.thr v => some (wrapE v)
  | Outcome.ret r => if isErrorV r then some r else none

/-- `_.without(list, c)`: a fresh list with every occurrence of `c` removed. -/
def without (l : List Nat) (c : Nat) : List Nat :=
  l.filter (fun x => decide (¬ x = c))

/-- Helper for `uniq`: keep elements not seen before, first occurrences win. -/
def uniqAux : List Nat → List Nat → List Nat
  | _, [] => []
  | seen, x :: xs =>
      if x ∈ seen then uniqAux seen xs else x :: uniqAux (x :: seen) xs

/-- `_.uniq(list)`: duplicates removed, first occurrences kept, order
preserved. -/
def uniq (l : List Nat) : List Nat := uniqAux [] l

/-- Update the registry at one event name (`map.set`; `map.delete` on an
empty update is unobservable through the `|| []` lookup and is rendered as
setting `[]`). -/
def setReg (r : String → List Nat) (e : String) (l : List Nat) :
    String → List Nat :=
  fun e2 => if e2 = e then l else r e2

/-- Bind a function identity in the environment. -/
def setEnv (env : Nat → Option Behavior) (c : Nat) (b : Behavior) :
    Nat → Option Behavior :=
  fun c2 => if c2 = c then some b else env c2

/-- Update one invocation counter. -/
def setCount (k : Nat → Nat) (c : Nat) (n : Nat) : Nat → Nat :=
  fun c2 => if c2 = c then n else k c2

/-- Append one observation entry to the trace. -/
def pushT (st : BState) (x : TEntry) : BState :=
  { st with trace := st.trace ++ [x] }

/-- The state right after the interpreter has logged and counted an
invocation of `c` with `args` at depth `d`, before running the body. -/
def invokedSt (st : BState) (d c : Nat) (args : List JsVal) : BState :=
  { pushT st (TEntry.invoke d c args) with
      counts := setCount st.counts c (st.counts c + 1) }

/-- Interpreter tasks: the post-validation cores of the broker operations
plus the intermediate stages of an emission. -/
inductive Task where
  | tEmit : String → List JsVal → Task
  | tAnnList : String → List JsVal → List Nat → Task
  | tAnnOne : String → List JsVal → Nat → Task
  | tInvoke : Nat → List JsVal → Task
  | tCmds : List Cmd → Task
  | tOn : String → Nat → Task
  | tOff : String → Nat → Task
  | tRemoveAll : String → Task
  | tOffList : String → List Nat → Task

/-- The fuel-indexed interpreter.  Task by task, against the source:

* `tEmit e args` = `emit`'s body after validation: fetch the listener array
  of `e` (the snapshot) and `forEach` `announce` over it.
* `tAnnList` is that `forEach`; `tAnnOne` is one `announce(event, args, cb)`
  call: invoke the listener via `attempt` and fire
  `this.emit('error', {event, callback, error})` when `isError` holds.
* `tInvoke c args`: call the function `c`.  A `base` body runs its commands
  (at depth `d+1`) and then returns/throws — a throw from a command (an
  invalid event name passed to a nested broker call) pre-empts the declared
  outcome.  The `onceWrapper ev cb` body is `flow`: call `cb` with
  `(ev, cb)` (the lexical `arguments` of `one`); on normal return,
  `this.off(ev, single)`; a throw propagates and skips the removal.
  Calling a non-function value throws a TypeError, which is an Error.
* `tCmds`: a listener body's broker calls in sequence; each public call
  validates its event name and throws the validation TypeError out of the
  listener otherwise.
* `tOn e c` = `on`'s body after validation:
  `map.set(key, uniq(concat(listeners, callback)))`, then
  `this.fire('listenerAdded', {event, callback})`.
* `tOff e c` = `off`'s body after validation: `updated = without(...)`; if
  the length changed, install the updated array and fire
  `'listenerRemoved'`; otherwise do nothing at all.
* `tRemoveAll e` = `removeAllListeners`'s body after validation: `forEach`
  `off` over the listener array fetched at the start (`tOffList`). -/
def run : Nat → Nat → BState → Task → Option (BState × Outcome)
  | 0, _, _, _ => none
  | fuel + 1, d, st, task =>
    match task with
    | Task.tEmit e args =>
        run fuel d (pushT st (TEntry.emitE d e args))
          (Task.tAnnList e args (st.registry e))
    | Task.tAnnList _ _ [] => some (st, Outcome.ret JsVal.vUndef)
    | Task.tAnnList e args (c :: rest) =>
        match run fuel d st (Task.tAnnOne e args c) with
        | none => none
        | some (st1, _) => run fuel d st1 (Task.tAnnList e args rest)
    | Task.tAnnOne e args c =>
        match run fuel d st (Task.tInvoke c args) with
        | none => none
        | some (st1, out) =>
            match attemptErr out with
            | some er =>
                match run fuel (d + 1) st1
                    (Task.tEmit "error" [JsVal.vPayload e c er]) with
                | none => none
                | some (st2, _) => some (st2, Outcome.ret JsVal.vUndef)
            | none => some (st1, Outcome.ret JsVal.vUndef)
    | Task.tInvoke c args =>
        match st.env c with
        | none =>
            some (invokedSt st d c args,
              Outcome.thr (JsVal.vErr
                (JsVal.vStr "TypeError: callback is not a function")))
        | some (Behavior.base f) =>
            match run fuel (d + 1) (invokedSt st d c args)
                (Task.tCmds (f (st.counts c) args).1) with
            | none => none
            | some (st2, Outcome.thr v) => some (st2, Outcome.thr v)
            | some (st2, Outcome.ret _) => some (st2, (f (st.counts c) args).2)
        | some (Behavior.onceWrapper ev cb) =>
            match cb with
            | JsVal.vFun cbId =>
                match run fuel (d + 1) (invokedSt st d c args)
                    (Task.tInvoke cbId [JsVal.vStr ev, JsVal.vFun cbId]) with
                | none => none
                | some (st2, Outcome.thr v) => some (st2, Outcome.thr v)
                | some (st2, Outcome.ret _) =>
                    match run fuel (d + 1) st2 (Task.tOff ev c) with
                    | none => none
                    | some (st3, _) => some (st3, Outcome.ret JsVal.vUndef)
            | _ =>
                some (invokedSt st d c args,
                  Outcome.thr (JsVal.vErr
                    (JsVal.vStr "TypeError: callback is not a function")))
    | Task.tCmds [] => some (st, Outcome.ret JsVal.vUndef)
    | Task.tCmds (cmd :: rest) =>
        match cmd with
        | Cmd.cEmit e as =>
            if validEv e then
              match run fuel d st (Task.tEmit e as) with
              | none => none
              | some (st1, _) => run fuel d st1 (Task.tCmds rest)
            else some (st, Outcome.thr (JsVal.vErr (JsVal.vStr eventErrMsg)))
        | Cmd.cOn e c =>
            if validEv e then
              match run fuel d st (Task.tOn e c) with
              | none => none
              | some (st1, _) => run fuel d st1 (Task.tCmds rest)
            else some (st, Outcome.thr (JsVal.vErr (JsVal.vStr eventErrMsg)))
        | Cmd.cOff e c =>
            if validEv e then
              match run fuel d st (Task.tOff e c) with
              | none => none
              | some (st1, _) => run fuel d st1 (Task.tCmds rest)
            else some (st, Outcome.thr (JsVal.vErr (JsVal.vStr eventErrMsg)))
        | Cmd.cRemoveAll e =>
            if validEv e then
              match run fuel d st (Task.tRemoveAll e) with
              | none => none
              | some (st1, _) => run fuel d st1 (Task.tCmds rest)
            else some (st, Outcome.thr (JsVal.vErr (JsVal.vStr eventErrMsg)))
    | Task.tOn e c =>
        match run fuel d
            { st with
              registry := setReg st.registry e (uniq (st.registry e ++ [c])) }
            (Task.tEmit "listenerAdded" [JsVal.vPayload2 e c]) with
        | none => none
        | some (st2, _) => some (st2, Outcome.ret JsVal.vUndef)
    | Task.tOff e c =>
        if (st.registry e).length = (without (st.registry e) c).length then
          some (st, Outcome.ret JsVal.vUndef)
        else
          match run fuel d
              { st with
                registry := setReg st.registry e (without (st.registry e) c) }
              (Task.tEmit "listenerRemoved" [JsVal.vPayload2 e c]) with
          | none => none
          | some (st2, _) => some (st2, Outcome.ret JsVal.vUndef)
    | Task.tRemoveAll e => run fuel d st (Task.tOffList e (st.registry e))
    | Task.tOffList _ [] => some (st, Outcome.ret JsVal.vUndef)
    | Task.tOffList e (c :: rest) =>
        match run fuel d st (Task.tOff e c) with
        | none => none
        | some (st1, _) => run fuel d st1 (Task.tOffList e rest)
termination_by structural fuel => fuel

/-- Run a task for its state only. -/
def runSt (fuel d : Nat) (st : BState) (t : Task) : Option BState :=
  (run fuel d st t).map (fun p => p.1)

/-- Extract the string of a (validated) event-name value. -/
def strVal : JsVal → String
  | JsVal.vStr s => s
  | _ => ""

/-- Extract the identity of a (validated) function value. -/
def funId : JsVal → Nat
  | JsVal.vFun n => n
  | _ => 0

/-- Public `on` / `subscribe` / `addListener`: validate `event` then
`callback` (in that order, `throwIfNot`), then run the registration body. -/
def onOp (fuel : Nat) (st : BState) (ev cb : JsVal) :
    Except String (Option BState) :=
  if isValidEventV ev then
    if isValidCallbackV cb then
      Except.ok (runSt fuel 0 st (Task.tOn (strVal ev) (funId cb)))
    else Except.error callbackErrMsg
  else Except.error eventErrMsg

/-- Public `one` / `once` (`subscribeOnce`): allocate the `single` closure
and register it through `on`.  Note there is no validation of `callback`
here — `on` only checks `single`, which is always a function; only the
event name is effectively validated. -/
def oneOp (fuel : Nat) (st : BState) (ev cb : JsVal) :
    Except String (Option BState) :=
  if isValidEventV ev then
    Except.ok (runSt fuel 0
      { st with nextId := st.nextId + 1,
                env := setEnv st.env st.nextId
                  (Behavior.onceWrapper (strVal ev) cb) }
      (Task.tOn (strVal ev) st.nextId))
  else Except.error eventErrMsg

/-- Public `off` / `unsubscribe` / `removeListener`: validate `event` then
`callback`, then run the removal body. -/
def offOp (fuel : Nat) (st : BState) (ev cb : JsVal) :
    Except String (Option BState) :=
  if isValidEventV ev then
    if isValidCallbackV cb then
      Except.ok (runSt fuel 0 st (Task.tOff (strVal ev) (funId cb)))
    else Except.error callbackErrMsg
  else Except.error eventErrMsg

/-- Public `removeAllListeners`: validate `event` only. -/
def removeAllOp (fuel : Nat) (st : BState) (ev : JsVal) :
    Except String (Option BState) :=
  if isValidEventV ev then
    Except.ok (runSt fuel 0 st (Task.tRemoveAll (strVal ev)))
  else Except.error eventErrMsg

/-- Public `emit` / `fire` / `announce`: validate `event` only, then run the
emission round. -/
def emitOp (fuel : Nat) (st : BState) (ev : JsVal) (args : List JsVal) :
    Except String (Option BState) :=
  if isValidEventV ev then
    Except.ok (runSt fuel 0 st (Task.tEmit (strVal ev) args))
  else Except.error eventErrMsg

/-- The depth recorded in a trace entry. -/
def tDepth : TEntry → Nat
  | TEntry.invoke d _ _ => d
  | TEntry.emitE d _ _ => d

/-- Is this entry a listener invocation at depth `d`? -/
def isInvAt (d : Nat) : TEntry → Bool
  | TEntry.invoke k _ _ => decide (k = d)
  | TEntry.emitE _ _ _ => false

/-- The invocation entries of an emission round at depth `d`. -/
def depthInvokes (d : Nat) (l : List TEntry) : List TEntry :=
  l.filter (isInvAt d)

/-- The invocation entries of one particular function, at any depth. -/
def invokesOf (c : Nat) (l : List TEntry) : List TEntry :=
  l.filter (fun t => match t with
    | TEntry.invoke _ c2 _ => decide (c2 = c)
    | TEntry.emitE _ _ _ => false)

/-- The `emit` entries for one event name, at any depth. -/
def emitsOf (e : String) (l : List TEntry) : List TEntry :=
  l.filter (fun t => match t with
    | TEntry.invoke _ _ _ => false
    | TEntry.emitE _ e2 _ => decide (e2 = e))

/-- Every per-event listener list of the registry is duplicate-free. -/
def RegNodup (r : String → List Nat) : Prop := ∀ e, (r e).Nodup

/-- Extract the state from a successful public-operation result. -/
def okSt : Except String (Option BState) → BState
  | Except.ok (some s) => s
  | _ => default

/-- A listener that does nothing and returns `undefined`. -/
def noopB : Behavior := Behavior.base (fun _ _ => ([], Outcome.ret JsVal.vUndef))

/-- C1 scenario: five listeners `1..5` on `"evt"`; the third removes itself
(`this.off('evt', f3)`) whenever invoked. -/
def c1Env : Nat → Option Behavior :=
  fun c =>
    if c = 3 then
      some (Behavior.base
        (fun _ _ => ([Cmd.cOff "evt" 3], Outcome.ret JsVal.vUndef)))
    else if c ≤ 5 then some noopB
    else none

def c1St : BState :=
  { registry := fun e => if e = "evt" then [1, 2, 3, 4, 5] else [],
    env := c1Env, counts := fun _ => 0, nextId := 6, trace := [] }

def c1Res : BState × Outcome :=
  (run 64 0 c1St (Task.tEmit "evt" [])).getD default

/-- C2 scenario: listener `1` always throws the Error value
`new Error("bad")`. -/
def c2Env : Nat → Option Behavior :=
  fun c =>
    if c = 1 then
      some (Behavior.base
        (fun _ _ => ([], Outcome.thr (JsVal.vErr (JsVal.vStr "bad")))))
    else if c = 2 then some noopB
    else none

def c2St : BState :=
  { registry := fun e => if e = "e2" then [1, 2] else [],
    env := c2Env, counts := fun _ => 0, nextId := 3, trace := [] }

def c2Inner : BState × Outcome :=
  (run 8 0 c2St (Task.tInvoke 1 [])).getD default

/-- C3 scenario: a recording listener `1`, registered through
`one('evt', f)`; then `emit('evt', 'x')` and `emit('evt', 'y')`. -/
def c3Env : Nat → Option Behavior :=
  fun c => if c = 1 then some noopB else none

def c3St : BState :=
  { registry := fun _ => [], env := c3Env, counts := fun _ => 0,
    nextId := 2, trace := [] }

def c3S1 : BState := okSt (oneOp 32 c3St (JsVal.vStr "evt") (JsVal.vFun 1))

def c3S2 : BState :=
  okSt (emitOp 32 c3S1 (JsVal.vStr "evt") [JsVal.vStr "x"])

def c3S3 : BState :=
  okSt (emitOp 32 c3S2 (JsVal.vStr "evt") [JsVal.vStr "y"])

/-- C4 scenario: five no-op listeners registered in order `1..5`. -/
def c4Env : Nat → Option Behavior :=
  fun c => if c ≤ 5 then some noopB else none

def c4St : BState :=
  { registry := fun e => if e = "evt" then [1, 2, 3, 4, 5] else [],
    env := c4Env, counts := fun _ => 0, nextId := 6, trace := [] }

def c4Res : BState × Outcome :=
  (run 64 0 c4St (Task.tEmit "evt" [JsVal.vNum 7])).getD default

/-- C5 scenario: `subscribe('evt', f); subscribe('evt', f); emit('evt')`. -/
def c5St : BState :=
  { registry := fun _ => [], env := fun c => if c = 1 then some noopB else none,
    counts := fun _ => 0, nextId := 2, trace := [] }

def c5S1 : BState := okSt (onOp 20 c5St (JsVal.vStr "evt") (JsVal.vFun 1))

def c5S2 : BState := okSt (onOp 20 c5S1 (JsVal.vStr "evt") (JsVal.vFun 1))

def c5S3 : BState := okSt (emitOp 20 c5S2 (JsVal.vStr "evt") [])

/-- C6 scenario: `subscribeOnce('evt', null)` — `null` is not callable. -/
def c6St : BState :=
  { registry := fun _ => [], env := fun _ => none, counts := fun _ => 0,
    nextId := 1, trace := [] }

def c6S1 : BState := okSt (oneOp 32 c6St (JsVal.vStr "evt") JsVal.vUndef)

/-- C7 scenario: listeners `[1, 2]` registered for `"evt"`. -/
def c7St : BState :=
  { registry := fun e => if e = "evt" then [1, 2] else [],
    env := fun c => if c ≤ 2 then some noopB else none,
    counts := fun _ => 0, nextId := 3, trace := [] }

def c7Off : BState × Outcome :=
  (run 5 0 c7St (Task.tOff "evt" 1)).getD default

/-- C8 scenario: two listeners on `"evt"`, then `removeAllListeners`. -/
def c8St : BState :=
  { registry := fun e => if e = "evt" then [1, 2] else [],
    env := fun c => if c ≤ 2 then some noopB else none,
    counts := fun _ => 0, nextId := 3, trace := [] }

def c8Res : BState × Outcome :=
  (run 20 0 c8St (Task.tRemoveAll "evt")).getD default

/-- C9 scenario (throw): listener `1` throws the plain string `"boom"`,
which is not an Error instance. -/
def c9Env : Nat → Option Behavior :=
  fun c =>
    if c = 1 then
      some (Behavior.base (fun _ _ => ([], Outcome.thr (JsVal.vStr "boom"))))
    else none

def c9St : BState :=
  { registry := fun e => if e = "evt" then [1] else [],
    env := c9Env, counts := fun _ => 0, nextId := 2, trace := [] }

def c9Res : BState × Outcome :=
  (run 16 0 c9St (Task.tEmit "evt" [])).getD default

def c9InnerThr : BState × Outcome :=
  (run 8 0 c9St (Task.tInvoke 1 [])).getD default

/-- C9 scenario (return): listener `1` returns the Error value
`new Error("oops")` without throwing. -/
def c9bEnv : Nat → Option Behavior :=
  fun c =>
    if c = 1 then
      some (Behavior.base
        (fun _ _ => ([], Outcome.ret (JsVal.vErr (JsVal.vStr "oops")))))
    else none

def c9bSt : BState :=
  { registry := fun e => if e = "evt" then [1] else [],
    env := c9bEnv, counts := fun _ => 0, nextId := 2, trace := [] }

def c9bInner : BState × Outcome :=
  (run 8 0 c9bSt (Task.tInvoke 1 [])).getD default

/-- C10 scenario: `one('evt', f)` where `f` throws on its first invocation
and returns normally afterwards; then three consecutive `emit('evt')`. -/
def c10Env : Nat → Option Behavior :=
  fun c =>
    if c = 1 then
      some (Behavior.base (fun k _ =>
        ([], if k = 0 then Outcome.thr (JsVal.vStr "first-call-fails")
             else Outcome.ret JsVal.vUndef)))
    else none

def c10St : BState :=
  { registry := fun _ => [], env := c10Env, counts := fun _ => 0,
    nextId := 2, trace := [] }

def c10S1 : BState := okSt (oneOp 40 c10St (JsVal.vStr "evt") (JsVal.vFun 1))

def c10S2 : BState := okSt (emitOp 40 c10S1 (JsVal.vStr "evt") [])

def c10S3 : BState := okSt (emitOp 40 c10S2 (JsVal.vStr "evt") [])

def c10S4 : BState := okSt (emitOp 40 c10S3 (JsVal.vStr "evt") [])

def c10Inner : BState × Outcome :=
  (run 10 1 (invokedSt c10S1 0 2 [])
    (Task.tInvoke 1 [JsVal.vStr "evt", JsVal.vFun 1])).getD default

-- ===== scenario definitions are inserted above this line =====

/-! ## One-step equations for the interpreter

`run` is structurally recursive on the fuel, so each equation below holds
definitionally; they let proofs unfold exactly one step at a time. -/

theorem runEq_emit (f d : Nat) (st : BState) (e : String) (args : List JsVal) :
    run (f + 1) d st (Task.tEmit e args) =
      run f d (pushT st (TEntry.emitE d e args))
        (Task.tAnnList e args (st.registry e)) := rfl

theorem runEq_annList_nil (f d : Nat) (st : BState) (e : String)
    (args : List JsVal) :
    run (f + 1) d st (Task.tAnnList e args []) =
      some (st, Outcome.ret JsVal.vUndef) := rfl

theorem runEq_annList_cons (f d : Nat) (st : BState) (e : String)
    (args : List JsVal) (c : Nat) (rest : List Nat) :
    run (f + 1) d st (Task.tAnnList e args (c :: rest)) =
      match run f d st (Task.tAnnOne e args c) with
      | none => none
      | some (st1, _) => run f d st1 (Task.tAnnList e args rest) := rfl

theorem runEq_annOne (f d : Nat) (st : BState) (e : String)
    (args : List JsVal) (c : Nat) :
    run (f + 1) d st (Task.tAnnOne e args c) =
      match run f d st (Task.tInvoke c args) with
      | none => none
      | some (st1, out) =>
          match attemptErr out with
          | some er =>
              match run f (d + 1) st1
                  (Task.tEmit "error" [JsVal.vPayload e c er]) with
              | none => none
              | some (st2, _) => some (st2, Outcome.ret JsVal.vUndef)
          | none => some (st1, Outcome.ret JsVal.vUndef) := rfl

theorem runEq_invoke (f d : Nat) (st : BState) (c : Nat) (args : List JsVal) :
    run (f + 1) d st (Task.tInvoke c args) =
      match st.env c with
      | none =>
          some (invokedSt st d c args,
            Outcome.thr (JsVal.vErr
              (JsVal.vStr "TypeError: callback is not a function")))
      | some (Behavior.base g) =>
          match run f (d + 1) (invokedSt st d c args)
              (Task.tCmds (g (st.counts c) args).1) with
          | none => none
          | some (st2, Outcome.thr v) => some (st2, Outcome.thr v)
          | some (st2, Outcome.ret _) => some (st2, (g (st.counts c) args).2)
      | some (Behavior.onceWrapper ev cb) =>
          match cb with
          | JsVal.vFun cbId =>
              match run f (d + 1) (invokedSt st d c args)
                  (Task.tInvoke cbId [JsVal.vStr ev, JsVal.vFun cbId]) with
              | none => none
              | some (st2, Outcome.thr v) => some (st2, Outcome.thr v)
              | some (st2, Outcome.ret _) =>
                  match run f (d + 1) st2 (Task.tOff ev c) with
                  | none => none
                  | some (st3, _) => some (st3, Outcome.ret JsVal.vUndef)
          | _ =>
              some (invokedSt st d c args,
                Outcome.thr (JsVal.vErr
                  (JsVal.vStr "TypeError: callback is not a function"))) := rfl

theorem runEq_cmds_nil (f d : Nat) (st : BState) :
    run (f + 1) d st (Task.tCmds []) = some (st, Outcome.ret JsVal.vUndef) :=
  rfl

theorem runEq_cmds_emit (f d : Nat) (st : BState) (e : String)
    (as : List JsVal) (rest : List Cmd) :
    run (f + 1) d st (Task.tCmds (Cmd.cEmit e as :: rest)) =
      if validEv e then
        match run f d st (Task.tEmit e as) with
        | none => none
        | some (st1, _) => run f d st1 (Task.tCmds rest)
      else some (st, Outcome.thr (JsVal.vErr (JsVal.vStr eventErrMsg))) := rfl

theorem runEq_cmds_on (f d : Nat) (st : BState) (e : String) (c : Nat)
    (rest : List Cmd) :
    run (f + 1) d st (Task.tCmds (Cmd.cOn e c :: rest)) =
      if validEv e then
        match run f d st (Task.tOn e c) with
        | none => none
        | some (st1, _) => run f d st1 (Task.tCmds rest)
      else some (st, Outcome.thr (JsVal.vErr (JsVal.vStr eventErrMsg))) := rfl

theorem runEq_cmds_off (f d : Nat) (st : BState) (e : String) (c : Nat)
    (rest : List Cmd) :
    run (f + 1) d st (Task.tCmds (Cmd.cOff e c :: rest)) =
      if validEv e then
        match run f d st (Task.tOff e c) with
        | none => none
        | some (st1, _) => run f d st1 (Task.tCmds rest)
      else some (st, Outcome.thr (JsVal.vErr (JsVal.vStr eventErrMsg))) := rfl

theorem runEq_cmds_removeAll (f d : Nat) (st : BState) (e : String)
    (rest : List Cmd) :
    run (f + 1) d st (Task.tCmds (Cmd.cRemoveAll e :: rest)) =
      if validEv e then
        match run f d st (Task.tRemoveAll e) with
        | none => none
        | some (st1, _) => run f d st1 (Task.tCmds rest)
      else some (st, Outcome.thr (JsVal.vErr (JsVal.vStr eventErrMsg))) := rfl

theorem runEq_on (f d : Nat) (st : BState) (e : String) (c : Nat) :
    run (f + 1) d st (Task.tOn e c) =
      match run f d
          { st with
            registry := setReg st.registry e (uniq (st.registry e ++ [c])) }
          (Task.tEmit "listenerAdded" [JsVal.vPayload2 e c]) with
      | none => none
      | some (st2, _) => some (st2, Outcome.ret JsVal.vUndef) := rfl

theorem runEq_off (f d : Nat) (st : BState) (e : String) (c : Nat) :
    run (f + 1) d st (Task.tOff e c) =
      if (st.registry e).length = (without (st.registry e) c).length then
        some (st, Outcome.ret JsVal.vUndef)
      else
        match run f d
            { st with
              registry := setReg st.registry e (without (st.registry e) c) }
            (Task.tEmit "listenerRemoved" [JsVal.vPayload2 e c]) with
        | none => none
        | some (st2, _) => some (st2, Outcome.ret JsVal.vUndef) := rfl

theorem runEq_removeAll (f d : Nat) (st : BState) (e : String) :
    run (f + 1) d st (Task.tRemoveAll e) =
      run f d st (Task.tOffList e (st.registry e)) := rfl

theorem runEq_offList_nil (f d : Nat) (st : BState) (e : String) :
    run (f + 1) d st (Task.tOffList e []) =
      some (st, Outcome.ret JsVal.vUndef) := rfl

theorem runEq_offList_cons (f d : Nat) (st : BState) (e : String) (c : Nat)
    (rest : List Nat) :
    run (f + 1) d st (Task.tOffList e (c :: rest)) =
      match run f d st (Task.tOff e c) with
      | none => none
      | some (st1, _) => run f d st1 (Task.tOffList e rest) := rfl

theorem run_zero (d : Nat) (st : BState) (t : Task) : run 0 d st t = none :=
  rfl

/-! ## Fuel monotonicity -/

/-- A completed run is unaffected by extra fuel, and produces the same
result. -/
theorem run_mono :
    ∀ fuel d st t p, run fuel d st t = some p → run (fuel + 1) d st t = some p := by
  intro fuel
  induction fuel with
  | zero => intro d st t p h; rw [run_zero] at h; exact Option.noConfusion h
  | succ n ih =>
    intro d st t p h
    cases t with
    | tEmit e args =>
        rw [runEq_emit] at h ⊢
        exact ih _ _ _ _ h
    | tAnnList e args l =>
        cases l with
        | nil => rw [runEq_annList_nil] at h ⊢; exact h
        | cons c rest =>
            cases h1 : run n d st (Task.tAnnOne e args c) with
            | none => simp only [runEq_annList_cons, h1] at h; exact Option.noConfusion h
            | some q =>
                obtain ⟨st1, o1⟩ := q
                simp only [runEq_annList_cons, h1] at h
                simp only [runEq_annList_cons, ih _ _ _ _ h1]
                exact ih _ _ _ _ h
    | tAnnOne e args c =>
        cases h1 : run n d st (Task.tInvoke c args) with
        | none => simp only [runEq_annOne, h1] at h; exact Option.noConfusion h
        | some q =>
            obtain ⟨st1, out⟩ := q
            simp only [runEq_annOne, h1] at h
            simp only [runEq_annOne, ih _ _ _ _ h1]
            cases h2 : attemptErr out with
            | none => simp only [h2] at h ⊢; exact h
            | some er =>
                simp only [h2] at h ⊢
                cases h3 : run n (d + 1) st1
                    (Task.tEmit "error" [JsVal.vPayload e c er]) with
                | none => simp only [h3] at h; exact Option.noConfusion h
                | some q2 =>
                    obtain ⟨st2, o2⟩ := q2
                    simp only [h3] at h
                    simp only [ih _ _ _ _ h3]
                    exact h
    | tInvoke c args =>
        cases hb : st.env c with
        | none => simp only [runEq_invoke, hb] at h ⊢; exact h
        | some b =>
            cases b with
            | base g =>
                cases h1 : run n (d + 1) (invokedSt st d c args)
                    (Task.tCmds (g (st.counts c) args).1) with
                | none => simp only [runEq_invoke, hb, h1] at h; exact Option.noConfusion h
                | some q =>
                    obtain ⟨st2, o2⟩ := q
                    simp only [runEq_invoke, hb, h1] at h
                    simp only [runEq_invoke, hb, ih _ _ _ _ h1]
                    cases o2 <;> exact h
            | onceWrapper ev cb =>
                cases cb with
                | vFun cbId =>
                    cases h1 : run n (d + 1) (invokedSt st d c args)
                        (Task.tInvoke cbId [JsVal.vStr ev, JsVal.vFun cbId]) with
                    | none => simp only [runEq_invoke, hb, h1] at h; exact Option.noConfusion h
                    | some q =>
                        obtain ⟨st2, o2⟩ := q
                        simp only [runEq_invoke, hb, h1] at h
                        simp only [runEq_invoke, hb, ih _ _ _ _ h1]
                        cases o2 with
                        | thr v => exact h
                        | ret r =>
                            cases h2 : run n (d + 1) st2 (Task.tOff ev c) with
                            | none => simp only [h2] at h; exact Option.noConfusion h
                            | some q2 =>
                                simp only [h2] at h
                                simp only [ih _ _ _ _ h2]
                                exact h
                | vUndef => simp only [runEq_invoke, hb] at h ⊢; exact h
                | vStr s => simp only [runEq_invoke, hb] at h ⊢; exact h
                | vNum k => simp only [runEq_invoke, hb] at h ⊢; exact h
                | vErr v => simp only [runEq_invoke, hb] at h ⊢; exact h
                | vPayload a1 a2 a3 => simp only [runEq_invoke, hb] at h ⊢; exact h
                | vPayload2 a1 a2 => simp only [runEq_invoke, hb] at h ⊢; exact h
    | tCmds l =>
        cases l with
        | nil => rw [runEq_cmds_nil] at h ⊢; exact h
        | cons cmd rest =>
            cases cmd with
            | cEmit e as =>
                cases hv : validEv e with
                | false =>
                    simp only [runEq_cmds_emit, hv, Bool.false_eq_true,
                      if_false] at h ⊢
                    exact h
                | true =>
                    simp only [runEq_cmds_emit, hv, if_true] at h ⊢
                    cases h1 : run n d st (Task.tEmit e as) with
                    | none => simp only [h1] at h; exact Option.noConfusion h
                    | some q =>
                        obtain ⟨st1, o1⟩ := q
                        simp only [h1] at h
                        simp only [ih _ _ _ _ h1]
                        exact ih _ _ _ _ h
            | cOn e c =>
                cases hv : validEv e with
                | false =>
                    simp only [runEq_cmds_on, hv, Bool.false_eq_true,
                      if_false] at h ⊢
                    exact h
                | true =>
                    simp only [runEq_cmds_on, hv, if_true] at h ⊢
                    cases h1 : run n d st (Task.tOn e c) with
                    | none => simp only [h1] at h; exact Option.noConfusion h
                    | some q =>
                        obtain ⟨st1, o1⟩ := q
                        simp only [h1] at h
                        simp only [ih _ _ _ _ h1]
                        exact ih _ _ _ _ h
            | cOff e c =>
                cases hv : validEv e with
                | false =>
                    simp only [runEq_cmds_off, hv, Bool.false_eq_true,
                      if_false] at h ⊢
                    exact h
                | true =>
                    simp only [runEq_cmds_off, hv, if_true] at h ⊢
                    cases h1 : run n d st (Task.tOff e c) with
                    | none => simp only [h1] at h; exact Option.noConfusion h
                    | some q =>
                        obtain ⟨st1, o1⟩ := q
                        simp only [h1] at h
                        simp only [ih _ _ _ _ h1]
                        exact ih _ _ _ _ h
            | cRemoveAll e =>
                cases hv : validEv e with
                | false =>
                    simp only [runEq_cmds_removeAll, hv, Bool.false_eq_true,
                      if_false] at h ⊢
                    exact h
                | true =>
                    simp only [runEq_cmds_removeAll, hv, if_true] at h ⊢
                    cases h1 : run n d st (Task.tRemoveAll e) with
                    | none => simp only [h1] at h; exact Option.noConfusion h
                    | some q =>
                        obtain ⟨st1, o1⟩ := q
                        simp only [h1] at h
                        simp only [ih _ _ _ _ h1]
                        exact ih _ _ _ _ h
    | tOn e c =>
        cases h1 : run n d
            { st with
              registry := setReg st.registry e (uniq (st.registry e ++ [c])) }
            (Task.tEmit "listenerAdded" [JsVal.vPayload2 e c]) with
        | none => simp only [runEq_on, h1] at h; exact Option.noConfusion h
        | some q =>
            obtain ⟨st2, o2⟩ := q
            simp only [runEq_on, h1] at h
            simp only [runEq_on, ih _ _ _ _ h1]
            exact h
    | tOff e c =>
        by_cases hl :
            (st.registry e).length = (without (st.registry e) c).length
        · simp only [runEq_off, if_pos hl] at h ⊢; exact h
        · cases h1 : run n d
              { st with
                registry := setReg st.registry e (without (st.registry e) c) }
              (Task.tEmit "listenerRemoved" [JsVal.vPayload2 e c]) with
          | none => simp only [runEq_off, if_neg hl, h1] at h; exact Option.noConfusion h
          | some q =>
              obtain ⟨st2, o2⟩ := q
              simp only [runEq_off, if_neg hl, h1] at h
              simp only [runEq_off, if_neg hl, ih _ _ _ _ h1]
              exact h
    | tRemoveAll e =>
        rw [runEq_removeAll] at h ⊢
        exact ih _ _ _ _ h
    | tOffList e l =>
        cases l with
        | nil => rw [runEq_offList_nil] at h ⊢; exact h
        | cons c rest =>
            cases h1 : run n d st (Task.tOff e c) with
            | none => simp only [runEq_offList_cons, h1] at h; exact Option.noConfusion h
            | some q =>
                obtain ⟨st1, o1⟩ := q
                simp only [runEq_offList_cons, h1] at h
                simp only [runEq_offList_cons, ih _ _ _ _ h1]
                exact ih _ _ _ _ h

/-- A completed run is reproduced by any larger fuel. -/
theorem run_mono_le {fuel fuel2 d : Nat} {st : BState} {t : Task}
    {p : BState × Outcome} (hle : fuel ≤ fuel2) (h : run fuel d st t = some p) :
    run fuel2 d st t = some p := by
  induction hle with
  | refl => exact h
  | step _ ih2 => exact run_mono _ _ _ _ _ ih2

/-! ## Trace structure -/

@[simp] theorem pushT_trace (st : BState) (x : TEntry) :
    (pushT st x).trace = st.trace ++ [x] := rfl

@[simp] theorem invokedSt_trace (st : BState) (d c : Nat) (args : List JsVal) :
    (invokedSt st d c args).trace =
      st.trace ++ [TEntry.invoke d c args] := rfl

/-- Any completed run only appends to the trace, and every appended entry
was recorded at depth at least `d`. -/
theorem run_trace :
    ∀ fuel d st t st2 out, run fuel d st t = some (st2, out) →
      ∃ ext, st2.trace = st.trace ++ ext ∧ ∀ x ∈ ext, d ≤ tDepth x := by
  intro fuel
  induction fuel with
  | zero => intro d st t st2 out h; rw [run_zero] at h; exact Option.noConfusion h
  | succ n ih =>
    intro d st t st2 out h
    cases t with
    | tEmit e args =>
        rw [runEq_emit] at h
        obtain ⟨ext1, ht, hd⟩ := ih _ _ _ _ _ h
        refine ⟨TEntry.emitE d e args :: ext1, ?_, ?_⟩
        · rw [ht]; simp
        · intro x hx
          rcases List.mem_cons.mp hx with rfl | hx
          · exact Nat.le_refl d
          · exact hd x hx
    | tAnnList e args l =>
        cases l with
        | nil =>
            rw [runEq_annList_nil] at h
            simp only [Option.some.injEq, Prod.mk.injEq] at h
            obtain ⟨rfl, -⟩ := h
            exact ⟨[], by simp, by simp⟩
        | cons c rest =>
            cases h1 : run n d st (Task.tAnnOne e args c) with
            | none => simp only [runEq_annList_cons, h1] at h; exact Option.noConfusion h
            | some q =>
                obtain ⟨st1, o1⟩ := q
                simp only [runEq_annList_cons, h1] at h
                obtain ⟨e1, t1, d1⟩ := ih _ _ _ _ _ h1
                obtain ⟨e2, t2, d2⟩ := ih _ _ _ _ _ h
                refine ⟨e1 ++ e2, ?_, ?_⟩
                · rw [t2, t1, List.append_assoc]
                · intro x hx
                  rcases List.mem_append.mp hx with hx | hx
                  · exact d1 x hx
                  · exact d2 x hx
    | tAnnOne e args c =>
        cases h1 : run n d st (Task.tInvoke c args) with
        | none => simp only [runEq_annOne, h1] at h; exact Option.noConfusion h
        | some q =>
            obtain ⟨st1, out0⟩ := q
            simp only [runEq_annOne, h1] at h
            obtain ⟨e1, t1, d1⟩ := ih _ _ _ _ _ h1
            cases h2 : attemptErr out0 with
            | none =>
                simp only [h2, Option.some.injEq, Prod.mk.injEq] at h
                obtain ⟨rfl, -⟩ := h
                exact ⟨e1, t1, d1⟩
            | some er =>
                simp only [h2] at h
                cases h3 : run n (d + 1) st1
                    (Task.tEmit "error" [JsVal.vPayload e c er]) with
                | none => simp only [h3] at h; exact Option.noConfusion h
                | some q2 =>
                    obtain ⟨stE, oE⟩ := q2
                    simp only [h3, Option.some.injEq, Prod.mk.injEq] at h
                    obtain ⟨rfl, -⟩ := h
                    obtain ⟨e2, t2, d2⟩ := ih _ _ _ _ _ h3
                    refine ⟨e1 ++ e2, ?_, ?_⟩
                    · rw [t2, t1, List.append_assoc]
                    · intro x hx
                      rcases List.mem_append.mp hx with hx | hx
                      · exact d1 x hx
                      · exact Nat.le_of_succ_le (d2 x hx)
    | tInvoke c args =>
        cases hb : st.env c with
        | none =>
            simp only [runEq_invoke, hb, Option.some.injEq, Prod.mk.injEq] at h
            obtain ⟨rfl, -⟩ := h
            exact ⟨[TEntry.invoke d c args], by simp, by simp [tDepth]⟩
        | some b =>
            cases b with
            | base g =>
                cases h1 : run n (d + 1) (invokedSt st d c args)
                    (Task.tCmds (g (st.counts c) args).1) with
                | none => simp only [runEq_invoke, hb, h1] at h; exact Option.noConfusion h
                | some q =>
                    obtain ⟨stA, o2⟩ := q
                    simp only [runEq_invoke, hb, h1] at h
                    obtain ⟨eA, tA, dA⟩ := ih _ _ _ _ _ h1
                    have hst2 : st2 = stA := by
                      cases o2 <;>
                        simp only [Option.some.injEq, Prod.mk.injEq] at h <;>
                        exact h.1.symm
                    subst hst2
                    refine ⟨TEntry.invoke d c args :: eA, ?_, ?_⟩
                    · rw [tA]; simp
                    · intro x hx
                      rcases List.mem_cons.mp hx with rfl | hx
                      · exact Nat.le_refl d
                      · exact Nat.le_of_succ_le (dA x hx)
            | onceWrapper ev cb =>
                cases cb with
                | vFun cbId =>
                    cases h1 : run n (d + 1) (invokedSt st d c args)
                        (Task.tInvoke cbId [JsVal.vStr ev, JsVal.vFun cbId]) with
                    | none => simp only [runEq_invoke, hb, h1] at h; exact Option.noConfusion h
                    | some q =>
                        obtain ⟨stA, o2⟩ := q
                        simp only [runEq_invoke, hb, h1] at h
                        obtain ⟨eA, tA, dA⟩ := ih _ _ _ _ _ h1
                        cases o2 with
                        | thr v =>
                            simp only [Option.some.injEq, Prod.mk.injEq] at h
                            obtain ⟨rfl, -⟩ := h
                            refine ⟨TEntry.invoke d c args :: eA, ?_, ?_⟩
                            · rw [tA]; simp
                            · intro x hx
                              rcases List.mem_cons.mp hx with rfl | hx
                              · exact Nat.le_refl d
                              · exact Nat.le_of_succ_le (dA x hx)
                        | ret r =>
                            cases h2 : run n (d + 1) stA (Task.tOff ev c) with
                            | none => simp only [h2] at h; exact Option.noConfusion h
                            | some q2 =>
                                obtain ⟨stB, oB⟩ := q2
                                simp only [h2, Option.some.injEq,
                                  Prod.mk.injEq] at h
                                obtain ⟨rfl, -⟩ := h
                                obtain ⟨eB, tB, dB⟩ := ih _ _ _ _ _ h2
                                refine ⟨TEntry.invoke d c args ::
                                  (eA ++ eB), ?_, ?_⟩
                                · rw [tB, tA]; simp
                                · intro x hx
                                  rcases List.mem_cons.mp hx with rfl | hx
                                  · exact Nat.le_refl d
                                  · rcases List.mem_append.mp hx with hx | hx
                                    · exact Nat.le_of_succ_le (dA x hx)
                                    · exact Nat.le_of_succ_le (dB x hx)
                | vUndef =>
                    simp only [runEq_invoke, hb, Option.some.injEq,
                      Prod.mk.injEq] at h
                    obtain ⟨rfl, -⟩ := h
                    exact ⟨[TEntry.invoke d c args], by simp, by simp [tDepth]⟩
                | vStr s =>
                    simp only [runEq_invoke, hb, Option.some.injEq,
                      Prod.mk.injEq] at h
                    obtain ⟨rfl, -⟩ := h
                    exact ⟨[TEntry.invoke d c args], by simp, by simp [tDepth]⟩
                | vNum k =>
                    simp only [runEq_invoke, hb, Option.some.injEq,
                      Prod.mk.injEq] at h
                    obtain ⟨rfl, -⟩ := h
                    exact ⟨[TEntry.invoke d c args], by simp, by simp [tDepth]⟩
                | vErr v =>
                    simp only [runEq_invoke, hb, Option.some.injEq,
                      Prod.mk.injEq] at h
                    obtain ⟨rfl, -⟩ := h
                    exact ⟨[TEntry.invoke d c args], by simp, by simp [tDepth]⟩
                | vPayload a1 a2 a3 =>
                    simp only [runEq_invoke, hb, Option.some.injEq,
                      Prod.mk.injEq] at h
                    obtain ⟨rfl, -⟩ := h
                    exact ⟨[TEntry.invoke d c args], by simp, by simp [tDepth]⟩
                | vPayload2 a1 a2 =>
                    simp only [runEq_invoke, hb, Option.some.injEq,
                      Prod.mk.injEq] at h
                    obtain ⟨rfl, -⟩ := h
                    exact ⟨[TEntry.invoke d c args], by simp, by simp [tDepth]⟩
    | tCmds l =>
        cases l with
        | nil =>
            rw [runEq_cmds_nil] at h
            simp only [Option.some.injEq, Prod.mk.injEq] at h
            obtain ⟨rfl, -⟩ := h
            exact ⟨[], by simp, by simp⟩
        | cons cmd rest =>
            cases cmd with
            | cEmit e as =>
                cases hv : validEv e with
                | false =>
                    simp only [runEq_cmds_emit, hv, Bool.false_eq_true,
                      if_false, Option.some.injEq, Prod.mk.injEq] at h
                    obtain ⟨rfl, -⟩ := h
                    exact ⟨[], by simp, by simp⟩
                | true =>
                    simp only [runEq_cmds_emit, hv, if_true] at h
                    cases h1 : run n d st (Task.tEmit e as) with
                    | none => simp only [h1] at h; exact Option.noConfusion h
                    | some q =>
                        obtain ⟨st1, o1⟩ := q
                        simp only [h1] at h
                        obtain ⟨e1, t1, d1⟩ := ih _ _ _ _ _ h1
                        obtain ⟨e2, t2, d2⟩ := ih _ _ _ _ _ h
                        refine ⟨e1 ++ e2, ?_, ?_⟩
                        · rw [t2, t1, List.append_assoc]
                        · intro x hx
                          rcases List.mem_append.mp hx with hx | hx
                          · exact d1 x hx
                          · exact d2 x hx
            | cOn e c =>
                cases hv : validEv e with
                | false =>
                    simp only [runEq_cmds_on, hv, Bool.false_eq_true,
                      if_false, Option.some.injEq, Prod.mk.injEq] at h
                    obtain ⟨rfl, -⟩ := h
                    exact ⟨[], by simp, by simp⟩
                | true =>
                    simp only [runEq_cmds_on, hv, if_true] at h
                    cases h1 : run n d st (Task.tOn e c) with
                    | none => simp only [h1] at h; exact Option.noConfusion h
                    | some q =>
                        obtain ⟨st1, o1⟩ := q
                        simp only [h1] at h
                        obtain ⟨e1, t1, d1⟩ := ih _ _ _ _ _ h1
                        obtain ⟨e2, t2, d2⟩ := ih _ _ _ _ _ h
                        refine ⟨e1 ++ e2, ?_, ?_⟩
                        · rw [t2, t1, List.append_assoc]
                        · intro x hx
                          rcases List.mem_append.mp hx with hx | hx
                          · exact d1 x hx
                          · exact d2 x hx
            | cOff e c =>
                cases hv : validEv e with
                | false =>
                    simp only [runEq_cmds_off, hv, Bool.false_eq_true,
                      if_false, Option.some.injEq, Prod.mk.injEq] at h
                    obtain ⟨rfl, -⟩ := h
                    exact ⟨[], by simp, by simp⟩
                | true =>
                    simp only [runEq_cmds_off, hv, if_true] at h
                    cases h1 : run n d st (Task.tOff e c) with
                    | none => simp only [h1] at h; exact Option.noConfusion h
                    | some q =>
                        obtain ⟨st1, o1⟩ := q
                        simp only [h1] at h
                        obtain ⟨e1, t1, d1⟩ := ih _ _ _ _ _ h1
                        obtain ⟨e2, t2, d2⟩ := ih _ _ _ _ _ h
                        refine ⟨e1 ++ e2, ?_, ?_⟩
                        · rw [t2, t1, List.append_assoc]
                        · intro x hx
                          rcases List.mem_append.mp hx with hx | hx
                          · exact d1 x hx
                          · exact d2 x hx
            | cRemoveAll e =>
                cases hv : validEv e with
                | false =>
                    simp only [runEq_cmds_removeAll, hv, Bool.false_eq_true,
                      if_false, Option.some.injEq, Prod.mk.injEq] at h
                    obtain ⟨rfl, -⟩ := h
                    exact ⟨[], by simp, by simp⟩
                | true =>
                    simp only [runEq_cmds_removeAll, hv, if_true] at h
                    cases h1 : run n d st (Task.tRemoveAll e) with
                    | none => simp only [h1] at h; exact Option.noConfusion h
                    | some q =>
                        obtain ⟨st1, o1⟩ := q
                        simp only [h1] at h
                        obtain ⟨e1, t1, d1⟩ := ih _ _ _ _ _ h1
                        obtain ⟨e2, t2, d2⟩ := ih _ _ _ _ _ h
                        refine ⟨e1 ++ e2, ?_, ?_⟩
                        · rw [t2, t1, List.append_assoc]
                        · intro x hx
                          rcases List.mem_append.mp hx with hx | hx
                          · exact d1 x hx
                          · exact d2 x hx
    | tOn e c =>
        cases h1 : run n d
            { st with
              registry := setReg st.registry e (uniq (st.registry e ++ [c])) }
            (Task.tEmit "listenerAdded" [JsVal.vPayload2 e c]) with
        | none => simp only [runEq_on, h1] at h; exact Option.noConfusion h
        | some q =>
            obtain ⟨stE, oE⟩ := q
            simp only [runEq_on, h1, Option.some.injEq, Prod.mk.injEq] at h
            obtain ⟨rfl, -⟩ := h
            obtain ⟨e1, t1, d1⟩ := ih _ _ _ _ _ h1
            exact ⟨e1, t1, d1⟩
    | tOff e c =>
        by_cases hl :
            (st.registry e).length = (without (st.registry e) c).length
        · simp only [runEq_off, if_pos hl, Option.some.injEq,
            Prod.mk.injEq] at h
          obtain ⟨rfl, -⟩ := h
          exact ⟨[], by simp, by simp⟩
        · cases h1 : run n d
              { st with
                registry := setReg st.registry e (without (st.registry e) c) }
              (Task.tEmit "listenerRemoved" [JsVal.vPayload2 e c]) with
          | none => simp only [runEq_off, if_neg hl, h1] at h; exact Option.noConfusion h
          | some q =>
              obtain ⟨stE, oE⟩ := q
              simp only [runEq_off, if_neg hl, h1, Option.some.injEq,
                Prod.mk.injEq] at h
              obtain ⟨rfl, -⟩ := h
              obtain ⟨e1, t1, d1⟩ := ih _ _ _ _ _ h1
              exact ⟨e1, t1, d1⟩
    | tRemoveAll e =>
        rw [runEq_removeAll] at h
        exact ih _ _ _ _ _ h
    | tOffList e l =>
        cases l with
        | nil =>
            rw [runEq_offList_nil] at h
            simp only [Option.some.injEq, Prod.mk.injEq] at h
            obtain ⟨rfl, -⟩ := h
            exact ⟨[], by simp, by simp⟩
        | cons c rest =>
            cases h1 : run n d st (Task.tOff e c) with
            | none => simp only [runEq_offList_cons, h1] at h; exact Option.noConfusion h
            | some q =>
                obtain ⟨st1, o1⟩ := q
                simp only [runEq_offList_cons, h1] at h
                obtain ⟨e1, t1, d1⟩ := ih _ _ _ _ _ h1
                obtain ⟨e2, t2, d2⟩ := ih _ _ _ _ _ h
                refine ⟨e1 ++ e2, ?_, ?_⟩
                · rw [t2, t1, List.append_assoc]
                · intro x hx
                  rcases List.mem_append.mp hx with hx | hx
                  · exact d1 x hx
                  · exact d2 x hx

/-- A completed invocation logs exactly one `invoke` entry at depth `d`,
first, and everything else it records is strictly deeper. -/
theorem run_invoke_ext (fuel d : Nat) (st : BState) (c : Nat)
    (args : List JsVal) (st2 : BState) (out : Outcome)
    (h : run fuel d st (Task.tInvoke c args) = some (st2, out)) :
    ∃ ext, st2.trace = st.trace ++ (TEntry.invoke d c args :: ext) ∧
      ∀ x ∈ ext, d + 1 ≤ tDepth x := by
  cases fuel with
  | zero => rw [run_zero] at h; exact Option.noConfusion h
  | succ n =>
    cases hb : st.env c with
    | none =>
        simp only [runEq_invoke, hb, Option.some.injEq, Prod.mk.injEq] at h
        obtain ⟨rfl, -⟩ := h
        exact ⟨[], by simp, by simp⟩
    | some b =>
        cases b with
        | base g =>
            cases h1 : run n (d + 1) (invokedSt st d c args)
                (Task.tCmds (g (st.counts c) args).1) with
            | none => simp only [runEq_invoke, hb, h1] at h; exact Option.noConfusion h
            | some q =>
                obtain ⟨stA, o2⟩ := q
                simp only [runEq_invoke, hb, h1] at h
                have hst2 : st2 = stA := by
                  cases o2 <;>
                    simp only [Option.some.injEq, Prod.mk.injEq] at h <;>
                    exact h.1.symm
                subst hst2
                obtain ⟨eA, tA, dA⟩ := run_trace _ _ _ _ _ _ h1
                exact ⟨eA, by rw [tA]; simp, dA⟩
        | onceWrapper ev cb =>
            cases cb with
            | vFun cbId =>
                cases h1 : run n (d + 1) (invokedSt st d c args)
                    (Task.tInvoke cbId [JsVal.vStr ev, JsVal.vFun cbId]) with
                | none => simp only [runEq_invoke, hb, h1] at h; exact Option.noConfusion h
                | some q =>
                    obtain ⟨stA, o2⟩ := q
                    simp only [runEq_invoke, hb, h1] at h
                    obtain ⟨eA, tA, dA⟩ := run_trace _ _ _ _ _ _ h1
                    cases o2 with
                    | thr v =>
                        simp only [Option.some.injEq, Prod.mk.injEq] at h
                        obtain ⟨rfl, -⟩ := h
                        exact ⟨eA, by rw [tA]; simp, dA⟩
                    | ret r =>
                        cases h2 : run n (d + 1) stA (Task.tOff ev c) with
                        | none => simp only [h2] at h; exact Option.noConfusion h
                        | some q2 =>
                            obtain ⟨stB, oB⟩ := q2
                            simp only [h2, Option.some.injEq,
                              Prod.mk.injEq] at h
                            obtain ⟨rfl, -⟩ := h
                            obtain ⟨eB, tB, dB⟩ := run_trace _ _ _ _ _ _ h2
                            refine ⟨eA ++ eB, ?_, ?_⟩
                            · rw [tB, tA]; simp
                            · intro x hx
                              rcases List.mem_append.mp hx with hx | hx
                              · exact dA x hx
                              · exact dB x hx
            | vUndef =>
                simp only [runEq_invoke, hb, Option.some.injEq,
                  Prod.mk.injEq] at h
                obtain ⟨rfl, -⟩ := h
                exact ⟨[], by simp, by simp⟩
            | vStr s =>
                simp only [runEq_invoke, hb, Option.some.injEq,
                  Prod.mk.injEq] at h
                obtain ⟨rfl, -⟩ := h
                exact ⟨[], by simp, by simp⟩
            | vNum k =>
                simp only [runEq_invoke, hb, Option.some.injEq,
                  Prod.mk.injEq] at h
                obtain ⟨rfl, -⟩ := h
                exact ⟨[], by simp, by simp⟩
            | vErr v =>
                simp only [runEq_invoke, hb, Option.some.injEq,
                  Prod.mk.injEq] at h
                obtain ⟨rfl, -⟩ := h
                exact ⟨[], by simp, by simp⟩
            | vPayload a1 a2 a3 =>
                simp only [runEq_invoke, hb, Option.some.injEq,
                  Prod.mk.injEq] at h
                obtain ⟨rfl, -⟩ := h
                exact ⟨[], by simp, by simp⟩
            | vPayload2 a1 a2 =>
                simp only [runEq_invoke, hb, Option.some.injEq,
                  Prod.mk.injEq] at h
                obtain ⟨rfl, -⟩ := h
                exact ⟨[], by simp, by simp⟩

/-- A completed `announce` of listener `c` logs exactly one depth-`d`
`invoke` entry for `c`, first; everything else (its body, a possible
`error` emission) is strictly deeper. -/
theorem run_annOne_ext (fuel d : Nat) (st : BState) (e : String)
    (args : List JsVal) (c : Nat) (st2 : BState) (out : Outcome)
    (h : run fuel d st (Task.tAnnOne e args c) = some (st2, out)) :
    ∃ ext, st2.trace = st.trace ++ (TEntry.invoke d c args :: ext) ∧
      ∀ x ∈ ext, d + 1 ≤ tDepth x := by
  cases fuel with
  | zero => rw [run_zero] at h; exact Option.noConfusion h
  | succ n =>
    cases h1 : run n d st (Task.tInvoke c args) with
    | none => simp only [runEq_annOne, h1] at h; exact Option.noConfusion h
    | some q =>
        obtain ⟨st1, out0⟩ := q
        simp only [runEq_annOne, h1] at h
        obtain ⟨e1, t1, d1⟩ := run_invoke_ext _ _ _ _ _ _ _ h1
        cases h2 : attemptErr out0 with
        | none =>
            simp only [h2, Option.some.injEq, Prod.mk.injEq] at h
            obtain ⟨rfl, -⟩ := h
            exact ⟨e1, t1, d1⟩
        | some er =>
            simp only [h2] at h
            cases h3 : run n (d + 1) st1
                (Task.tEmit "error" [JsVal.vPayload e c er]) with
            | none => simp only [h3] at h; exact Option.noConfusion h
            | some q2 =>
                obtain ⟨stE, oE⟩ := q2
                simp only [h3, Option.some.injEq, Prod.mk.injEq] at h
                obtain ⟨rfl, -⟩ := h
                obtain ⟨e2, t2, d2⟩ := run_trace _ _ _ _ _ _ h3
                refine ⟨e1 ++ e2, ?_, ?_⟩
                · rw [t2, t1]; simp
                · intro x hx
                  rcases List.mem_append.mp hx with hx | hx
                  · exact d1 x hx
                  · exact d2 x hx

/-- Entries that are strictly deeper than `d` contribute nothing to the
depth-`d` invocation list. -/
theorem depthInvokes_nil_of_deeper (d : Nat) (ext : List TEntry)
    (hd : ∀ x ∈ ext, d + 1 ≤ tDepth x) : depthInvokes d ext = [] := by
  rw [depthInvokes, List.filter_eq_nil_iff]
  intro x hx
  have := hd x hx
  cases x with
  | invoke k c2 a2 =>
      simp only [isInvAt, decide_eq_true_eq]
      simp only [tDepth] at this
      omega
  | emitE k e2 a2 => simp [isInvAt]

@[simp] theorem depthInvokes_append (d : Nat) (l1 l2 : List TEntry) :
    depthInvokes d (l1 ++ l2) = depthInvokes d l1 ++ depthInvokes d l2 := by
  simp [depthInvokes]

/-- The depth-`d` invocations of a completed listener-list fold are exactly
one invocation per listed listener, in list order, with the given
arguments. -/
theorem run_annList_round :
    ∀ fuel d st e args l st2 out,
      run fuel d st (Task.tAnnList e args l) = some (st2, out) →
      ∃ ext, st2.trace = st.trace ++ ext ∧
        depthInvokes d ext = l.map (fun c => TEntry.invoke d c args) := by
  intro fuel
  induction fuel with
  | zero => intro d st e args l st2 out h; rw [run_zero] at h; exact Option.noConfusion h
  | succ n ih =>
    intro d st e args l st2 out h
    cases l with
    | nil =>
        rw [runEq_annList_nil] at h
        simp only [Option.some.injEq, Prod.mk.injEq] at h
        obtain ⟨rfl, -⟩ := h
        exact ⟨[], by simp, by simp [depthInvokes]⟩
    | cons c rest =>
        cases h1 : run n d st (Task.tAnnOne e args c) with
        | none => simp only [runEq_annList_cons, h1] at h; exact Option.noConfusion h
        | some q =>
            obtain ⟨st1, o1⟩ := q
            simp only [runEq_annList_cons, h1] at h
            obtain ⟨e1, t1, d1⟩ := run_annOne_ext _ _ _ _ _ _ _ _ h1
            obtain ⟨e2, t2, d2⟩ := ih _ _ _ _ _ _ _ h
            refine ⟨(TEntry.invoke d c args :: e1) ++ e2, ?_, ?_⟩
            · rw [t2, t1]; simp
            · rw [depthInvokes_append, d2]
              have : depthInvokes d (TEntry.invoke d c args :: e1) =
                  [TEntry.invoke d c args] := by
                rw [depthInvokes, List.filter_cons_of_pos
                  (by simp [isInvAt])]
                rw [← depthInvokes, depthInvokes_nil_of_deeper d e1 d1]
              rw [this]
              simp

/-- The depth-`d` invocations recorded by a completed `emit` round are
exactly one invocation per listener in the snapshot taken at the start of
the call, in snapshot order, all with the emitted arguments. -/
theorem run_emit_round (fuel d : Nat) (st : BState) (e : String)
    (args : List JsVal) (st2 : BState) (out : Outcome)
    (h : run fuel d st (Task.tEmit e args) = some (st2, out)) :
    ∃ ext, st2.trace = st.trace ++ ext ∧
      depthInvokes d ext =
        (st.registry e).map (fun c => TEntry.invoke d c args) := by
  cases fuel with
  | zero => rw [run_zero] at h; exact Option.noConfusion h
  | succ n =>
    rw [runEq_emit] at h
    obtain ⟨ext1, t1, d1⟩ := run_annList_round _ _ _ _ _ _ _ _ h
    refine ⟨TEntry.emitE d e args :: ext1, ?_, ?_⟩
    · rw [t1]; simp
    · rw [depthInvokes, List.filter_cons_of_neg (by simp [isInvAt])]
      exact d1

/-! ## The no-duplicates invariant -/

@[simp] theorem pushT_registry (st : BState) (x : TEntry) :
    (pushT st x).registry = st.registry := rfl

@[simp] theorem invokedSt_registry (st : BState) (d c : Nat)
    (args : List JsVal) :
    (invokedSt st d c args).registry = st.registry := rfl

theorem setReg_apply (r : String → List Nat) (e : String) (l : List Nat)
    (e2 : String) : setReg r e l e2 = if e2 = e then l else r e2 := rfl

theorem uniqAux_spec :
    ∀ l seen, (uniqAux seen l).Nodup ∧ ∀ x ∈ uniqAux seen l, x ∉ seen := by
  intro l
  induction l with
  | nil => intro seen; simp [uniqAux]
  | cons x xs ih =>
    intro seen
    by_cases hx : x ∈ seen
    · simp only [uniqAux, if_pos hx]
      exact ⟨(ih seen).1, (ih seen).2⟩
    · simp only [uniqAux, if_neg hx]
      obtain ⟨hnd, hout⟩ := ih (x :: seen)
      constructor
      · refine List.nodup_cons.mpr ⟨?_, hnd⟩
        intro hmem
        exact (hout x hmem) (List.mem_cons_self x seen)
      · intro y hy
        rcases List.mem_cons.mp hy with rfl | hy
        · exact hx
        · intro hsy
          exact (hout y hy) (List.mem_cons_of_mem x hsy)

/-- `uniq` always produces a duplicate-free list. -/
theorem uniq_nodup (l : List Nat) : (uniq l).Nodup := (uniqAux_spec l []).1

/-- `without` preserves freedom from duplicates. -/
theorem without_nodup (l : List Nat) (c : Nat) (h : l.Nodup) :
    (without l c).Nodup := List.Nodup.filter _ h

theorem regNodup_setReg (r : String → List Nat) (e : String) (l : List Nat)
    (hr : RegNodup r) (hl : l.Nodup) : RegNodup (setReg r e l) := by
  intro e2
  rw [setReg_apply]
  by_cases he : e2 = e
  · rw [if_pos he]; exact hl
  · rw [if_neg he]; exact hr e2

/-- Every interpreter task preserves the invariant that no listener occurs
twice in any event's list. -/
theorem run_nodup :
    ∀ fuel d st t st2 out, run fuel d st t = some (st2, out) →
      RegNodup st.registry → RegNodup st2.registry := by
  intro fuel
  induction fuel with
  | zero => intro d st t st2 out h; rw [run_zero] at h; exact Option.noConfusion h
  | succ n ih =>
    intro d st t st2 out h hr
    cases t with
    | tEmit e args =>
        rw [runEq_emit] at h
        exact ih _ _ _ _ _ h hr
    | tAnnList e args l =>
        cases l with
        | nil =>
            rw [runEq_annList_nil] at h
            simp only [Option.some.injEq, Prod.mk.injEq] at h
            obtain ⟨rfl, -⟩ := h
            exact hr
        | cons c rest =>
            cases h1 : run n d st (Task.tAnnOne e args c) with
            | none => simp only [runEq_annList_cons, h1] at h; exact Option.noConfusion h
            | some q =>
                obtain ⟨st1, o1⟩ := q
                simp only [runEq_annList_cons, h1] at h
                exact ih _ _ _ _ _ h (ih _ _ _ _ _ h1 hr)
    | tAnnOne e args c =>
        cases h1 : run n d st (Task.tInvoke c args) with
        | none => simp only [runEq_annOne, h1] at h; exact Option.noConfusion h
        | some q =>
            obtain ⟨st1, out0⟩ := q
            simp only [runEq_annOne, h1] at h
            have hr1 := ih _ _ _ _ _ h1 hr
            cases h2 : attemptErr out0 with
            | none =>
                simp only [h2, Option.some.injEq, Prod.mk.injEq] at h
                obtain ⟨rfl, -⟩ := h
                exact hr1
            | some er =>
                simp only [h2] at h
                cases h3 : run n (d + 1) st1
                    (Task.tEmit "error" [JsVal.vPayload e c er]) with
                | none => simp only [h3] at h; exact Option.noConfusion h
                | some q2 =>
                    obtain ⟨stE, oE⟩ := q2
                    simp only [h3, Option.some.injEq, Prod.mk.injEq] at h
                    obtain ⟨rfl, -⟩ := h
                    exact ih _ _ _ _ _ h3 hr1
    | tInvoke c args =>
        cases hb : st.env c with
        | none =>
            simp only [runEq_invoke, hb, Option.some.injEq, Prod.mk.injEq] at h
            obtain ⟨rfl, -⟩ := h
            exact hr
        | some b =>
            cases b with
            | base g =>
                cases h1 : run n (d + 1) (invokedSt st d c args)
                    (Task.tCmds (g (st.counts c) args).1) with
                | none => simp only [runEq_invoke, hb, h1] at h; exact Option.noConfusion h
                | some q =>
                    obtain ⟨stA, o2⟩ := q
                    simp only [runEq_invoke, hb, h1] at h
                    have hst2 : st2 = stA := by
                      cases o2 <;>
                        simp only [Option.some.injEq, Prod.mk.injEq] at h <;>
                        exact h.1.symm
                    subst hst2
                    exact ih _ _ _ _ _ h1 (by simpa using hr)
            | onceWrapper ev cb =>
                cases cb with
                | vFun cbId =>
                    cases h1 : run n (d + 1) (invokedSt st d c args)
                        (Task.tInvoke cbId [JsVal.vStr ev, JsVal.vFun cbId]) with
                    | none => simp only [runEq_invoke, hb, h1] at h; exact Option.noConfusion h
                    | some q =>
                        obtain ⟨stA, o2⟩ := q
                        simp only [runEq_invoke, hb, h1] at h
                        have hrA := ih _ _ _ _ _ h1 (by simpa using hr)
                        cases o2 with
                        | thr v =>
                            simp only [Option.some.injEq, Prod.mk.injEq] at h
                            obtain ⟨rfl, -⟩ := h
                            exact hrA
                        | ret r =>
                            cases h2 : run n (d + 1) stA (Task.tOff ev c) with
                            | none => simp only [h2] at h; exact Option.noConfusion h
                            | some q2 =>
                                obtain ⟨stB, oB⟩ := q2
                                simp only [h2, Option.some.injEq,
                                  Prod.mk.injEq] at h
                                obtain ⟨rfl, -⟩ := h
                                exact ih _ _ _ _ _ h2 hrA
                | vUndef =>
                    simp only [runEq_invoke, hb, Option.some.injEq,
                      Prod.mk.injEq] at h
                    obtain ⟨rfl, -⟩ := h
                    exact hr
                | vStr s =>
                    simp only [runEq_invoke, hb, Option.some.injEq,
                      Prod.mk.injEq] at h
                    obtain ⟨rfl, -⟩ := h
                    exact hr
                | vNum k =>
                    simp only [runEq_invoke, hb, Option.some.injEq,
                      Prod.mk.injEq] at h
                    obtain ⟨rfl, -⟩ := h
                    exact hr
                | vErr v =>
                    simp only [runEq_invoke, hb, Option.some.injEq,
                      Prod.mk.injEq] at h
                    obtain ⟨rfl, -⟩ := h
                    exact hr
                | vPayload a1 a2 a3 =>
                    simp only [runEq_invoke, hb, Option.some.injEq,
                      Prod.mk.injEq] at h
                    obtain ⟨rfl, -⟩ := h
                    exact hr
                | vPayload2 a1 a2 =>
                    simp only [runEq_invoke, hb, Option.some.injEq,
                      Prod.mk.injEq] at h
                    obtain ⟨rfl, -⟩ := h
                    exact hr
    | tCmds l =>
        cases l with
        | nil =>
            rw [runEq_cmds_nil] at h
            simp only [Option.some.injEq, Prod.mk.injEq] at h
            obtain ⟨rfl, -⟩ := h
            exact hr
        | cons cmd rest =>
            cases cmd with
            | cEmit e as =>
                cases hv : validEv e with
                | false =>
                    simp only [runEq_cmds_emit, hv, Bool.false_eq_true,
                      if_false, Option.some.injEq, Prod.mk.injEq] at h
                    obtain ⟨rfl, -⟩ := h
                    exact hr
                | true =>
                    simp only [runEq_cmds_emit, hv, if_true] at h
                    cases h1 : run n d st (Task.tEmit e as) with
                    | none => simp only [h1] at h; exact Option.noConfusion h
                    | some q =>
                        obtain ⟨st1, o1⟩ := q
                        simp only [h1] at h
                        exact ih _ _ _ _ _ h (ih _ _ _ _ _ h1 hr)
            | cOn e c =>
                cases hv : validEv e with
                | false =>
                    simp only [runEq_cmds_on, hv, Bool.false_eq_true,
                      if_false, Option.some.injEq, Prod.mk.injEq] at h
                    obtain ⟨rfl, -⟩ := h
                    exact hr
                | true =>
                    simp only [runEq_cmds_on, hv, if_true] at h
                    cases h1 : run n d st (Task.tOn e c) with
                    | none => simp only [h1] at h; exact Option.noConfusion h
                    | some q =>
                        obtain ⟨st1, o1⟩ := q
                        simp only [h1] at h
                        exact ih _ _ _ _ _ h (ih _ _ _ _ _ h1 hr)
            | cOff e c =>
                cases hv : validEv e with
                | false =>
                    simp only [runEq_cmds_off, hv, Bool.false_eq_true,
                      if_false, Option.some.injEq, Prod.mk.injEq] at h
                    obtain ⟨rfl, -⟩ := h
                    exact hr
                | true =>
                    simp only [runEq_cmds_off, hv, if_true] at h
                    cases h1 : run n d st (Task.tOff e c) with
                    | none => simp only [h1] at h; exact Option.noConfusion h
                    | some q =>
                        obtain ⟨st1, o1⟩ := q
                        simp only [h1] at h
                        exact ih _ _ _ _ _ h (ih _ _ _ _ _ h1 hr)
            | cRemoveAll e =>
                cases hv : validEv e with
                | false =>
                    simp only [runEq_cmds_removeAll, hv, Bool.false_eq_true,
                      if_false, Option.some.injEq, Prod.mk.injEq] at h
                    obtain ⟨rfl, -⟩ := h
                    exact hr
                | true =>
                    simp only [runEq_cmds_removeAll, hv, if_true] at h
                    cases h1 : run n d st (Task.tRemoveAll e) with
                    | none => simp only [h1] at h; exact Option.noConfusion h
                    | some q =>
                        obtain ⟨st1, o1⟩ := q
                        simp only [h1] at h
                        exact ih _ _ _ _ _ h (ih _ _ _ _ _ h1 hr)
    | tOn e c =>
        cases h1 : run n d
            { st with
              registry := setReg st.registry e (uniq (st.registry e ++ [c])) }
            (Task.tEmit "listenerAdded" [JsVal.vPayload2 e c]) with
        | none => simp only [runEq_on, h1] at h; exact Option.noConfusion h
        | some q =>
            obtain ⟨stE, oE⟩ := q
            simp only [runEq_on, h1, Option.some.injEq, Prod.mk.injEq] at h
            obtain ⟨rfl, -⟩ := h
            exact ih _ _ _ _ _ h1
              (regNodup_setReg _ _ _ hr (uniq_nodup _))
    | tOff e c =>
        by_cases hl :
            (st.registry e).length = (without (st.registry e) c).length
        · simp only [runEq_off, if_pos hl, Option.some.injEq,
            Prod.mk.injEq] at h
          obtain ⟨rfl, -⟩ := h
          exact hr
        · cases h1 : run n d
              { st with
                registry := setReg st.registry e (without (st.registry e) c) }
              (Task.tEmit "listenerRemoved" [JsVal.vPayload2 e c]) with
          | none => simp only [runEq_off, if_neg hl, h1] at h; exact Option.noConfusion h
          | some q =>
              obtain ⟨stE, oE⟩ := q
              simp only [runEq_off, if_neg hl, h1, Option.some.injEq,
                Prod.mk.injEq] at h
              obtain ⟨rfl, -⟩ := h
              exact ih _ _ _ _ _ h1
                (regNodup_setReg _ _ _ hr (without_nodup _ _ (hr e)))
    | tRemoveAll e =>
        rw [runEq_removeAll] at h
        exact ih _ _ _ _ _ h hr
    | tOffList e l =>
        cases l with
        | nil =>
            rw [runEq_offList_nil] at h
            simp only [Option.some.injEq, Prod.mk.injEq] at h
            obtain ⟨rfl, -⟩ := h
            exact hr
        | cons c rest =>
            cases h1 : run n d st (Task.tOff e c) with
            | none => simp only [runEq_offList_cons, h1] at h; exact Option.noConfusion h
            | some q =>
                obtain ⟨st1, o1⟩ := q
                simp only [runEq_offList_cons, h1] at h
                exact ih _ _ _ _ _ h (ih _ _ _ _ _ h1 hr)

/-! ## Removal and lifecycle-emission shapes -/

theorem without_eq_of_not_mem {l : List Nat} {c : Nat} (h : c ∉ l) :
    without l c = l := by
  rw [without, List.filter_eq_self]
  intro a ha
  simp only [decide_eq_true_eq]
  intro hac
  exact h (hac ▸ ha)

theorem length_without_lt {l : List Nat} {c : Nat} (h : c ∈ l) :
    (without l c).length < l.length := by
  rw [without]
  apply List.length_filter_lt_length_iff_exists.mpr
  exact ⟨c, h, by simp⟩

theorem without_cons_self {rest : List Nat} {c : Nat} (h : c ∉ rest) :
    without (c :: rest) c = rest := by
  rw [without, List.filter_cons_of_neg (by simp)]
  exact without_eq_of_not_mem h

theorem setReg_overwrite (r : String → List Nat) (e : String)
    (a b : List Nat) : setReg (setReg r e a) e b = setReg r e b := by
  funext e2
  simp only [setReg]
  by_cases he : e2 = e <;> simp [he]

theorem setReg_ne {r : String → List Nat} {e e2 : String} {l : List Nat}
    (h : e2 ≠ e) : setReg r e l e2 = r e2 := by
  rw [setReg_apply, if_neg h]

/-- Emitting an event that currently has no listeners just records the
emission and returns. -/
theorem emit_empty (fuel d : Nat) (st : BState) (e : String)
    (args : List JsVal) (h : st.registry e = []) :
    run (fuel + 2) d st (Task.tEmit e args) =
      some (pushT st (TEntry.emitE d e args), Outcome.ret JsVal.vUndef) := by
  rw [runEq_emit, h, runEq_annList_nil]

/-- `off` on an absent listener is a complete no-op: the state — registry,
trace, everything — is returned unchanged and nothing is fired. -/
theorem off_not_mem (fuel d : Nat) (st : BState) (e : String) (c : Nat)
    (h : c ∉ st.registry e) :
    run (fuel + 1) d st (Task.tOff e c) =
      some (st, Outcome.ret JsVal.vUndef) := by
  rw [runEq_off, if_pos (by rw [without_eq_of_not_mem h])]

/-- `off` on a present listener, when nobody listens to `listenerRemoved`:
the updated array is installed and exactly one `listenerRemoved` emission
with payload `{event, callback}` is recorded. -/
theorem off_mem (fuel d : Nat) (st : BState) (e : String) (c : Nat)
    (hc : c ∈ st.registry e)
    (hlr : st.registry "listenerRemoved" = [])
    (hne : e ≠ "listenerRemoved") :
    run (fuel + 3) d st (Task.tOff e c) =
      some ({ st with
                registry := setReg st.registry e (without (st.registry e) c),
                trace := st.trace ++
                  [TEntry.emitE d "listenerRemoved" [JsVal.vPayload2 e c]] },
            Outcome.ret JsVal.vUndef) := by
  rw [runEq_off, if_neg (by exact Nat.ne_of_gt (length_without_lt hc))]
  rw [emit_empty fuel d _ "listenerRemoved" [JsVal.vPayload2 e c]
    (by show setReg st.registry e (without (st.registry e) c)
          "listenerRemoved" = []
        rw [setReg_ne (fun hh => hne hh.symm)]; exact hlr)]
  rfl

/-- The `removeAllListeners` fold over a snapshot `l` of the event's list,
under a benign environment (no `listenerRemoved` listeners): afterwards the
event's list is empty and exactly one `listenerRemoved` emission per
snapshot member was recorded, in snapshot order; nothing else changes. -/
theorem offList_clean :
    ∀ (l : List Nat) (fuel d : Nat) (st : BState) (e : String)
      (st2 : BState) (out : Outcome),
      st.registry e = l → l.Nodup →
      st.registry "listenerRemoved" = [] → e ≠ "listenerRemoved" →
      run fuel d st (Task.tOffList e l) = some (st2, out) →
      st2.registry = setReg st.registry e [] ∧
      st2.trace = st.trace ++
        l.map (fun c => TEntry.emitE d "listenerRemoved"
          [JsVal.vPayload2 e c]) ∧
      st2.env = st.env ∧ st2.counts = st.counts ∧ st2.nextId = st.nextId := by
  intro l
  induction l with
  | nil =>
    intro fuel d st e st2 out hre hnd hlr hne h
    cases fuel with
    | zero => rw [run_zero] at h; exact Option.noConfusion h
    | succ n =>
      rw [runEq_offList_nil] at h
      simp only [Option.some.injEq, Prod.mk.injEq] at h
      obtain ⟨rfl, -⟩ := h
      refine ⟨?_, by simp, rfl, rfl, rfl⟩
      funext e2
      rw [setReg_apply]
      by_cases he : e2 = e
      · rw [if_pos he, he, hre]
      · rw [if_neg he]
  | cons c rest ih =>
    intro fuel d st e st2 out hre hnd hlr hne h
    cases fuel with
    | zero => rw [run_zero] at h; exact Option.noConfusion h
    | succ n =>
      have hcr : c ∉ rest := (List.nodup_cons.mp hnd).1
      have hcm : c ∈ st.registry e := by rw [hre]; exact List.mem_cons_self c rest
      have hof : run 3 d st (Task.tOff e c) =
          some ({ st with
                    registry := setReg st.registry e
                      (without (st.registry e) c),
                    trace := st.trace ++
                      [TEntry.emitE d "listenerRemoved"
                        [JsVal.vPayload2 e c]] },
                Outcome.ret JsVal.vUndef) :=
        off_mem 0 d st e c hcm hlr hne
      cases h1 : run n d st (Task.tOff e c) with
      | none => simp only [runEq_offList_cons, h1] at h; exact Option.noConfusion h
      | some q =>
        obtain ⟨st1, o1⟩ := q
        simp only [runEq_offList_cons, h1] at h
        have h1b := run_mono_le (Nat.le_max_left n 3) h1
        have hofb := run_mono_le (Nat.le_max_right n 3) hof
        rw [h1b] at hofb
        simp only [Option.some.injEq, Prod.mk.injEq] at hofb
        obtain ⟨hst1, -⟩ := hofb
        rw [hst1] at h
        obtain ⟨r2, t2, e2, c2, n2⟩ :=
          ih n d _ e st2 out
            (by show setReg st.registry e (without (st.registry e) c) e = rest
                rw [setReg_apply, if_pos rfl, hre, without_cons_self hcr])
            (List.nodup_cons.mp hnd).2
            (by show setReg st.registry e (without (st.registry e) c)
                  "listenerRemoved" = []
                rw [setReg_ne (fun hh => hne hh.symm)]
                exact hlr)
            hne h
        refine ⟨?_, ?_, e2, c2, n2⟩
        · rw [r2]
          show setReg (setReg st.registry e (without (st.registry e) c)) e []
            = setReg st.registry e []
          rw [setReg_overwrite]
        · rw [t2]
          show (st.trace ++ [TEntry.emitE d "listenerRemoved"
              [JsVal.vPayload2 e c]]) ++
            rest.map (fun c => TEntry.emitE d "listenerRemoved"
              [JsVal.vPayload2 e c]) = _
          simp

/-! ## Claim theorems -/

/-- Claim C1: for every emission round, the set of listeners invoked by
`emit(eventName, ...)` is exactly the snapshot of listeners registered for
`eventName` at the start of the call — each exactly once, in order, with
the emitted arguments.  Listeners removed (including self-removal) or added
by listeners during the round never change the round's invocation list,
because the round's depth-`d` invocations equal the start-of-call snapshot
for **every** environment of listener behaviours. -/
theorem c1_emit_snapshot_round (fuel d : Nat) (st : BState) (e : String)
    (args : List JsVal) (st2 : BState) (out : Outcome)
    (h : run fuel d st (Task.tEmit e args) = some (st2, out)) :
    ∃ ext, st2.trace = st.trace ++ ext ∧
      depthInvokes d ext =
        (st.registry e).map (fun c => TEntry.invoke d c args) :=
  run_emit_round fuel d st e args st2 out h

/-- Witness for C1, at the claim's own concrete instance: five listeners
where the third removes itself on first call; the single round invokes
`1, 2, 3, 4, 5` (so in particular `1, 2, 4, 5`) exactly once each. -/
theorem c1_witness :
    run 64 0 c1St (Task.tEmit "evt" []) = some c1Res ∧
    ∃ ext, c1Res.1.trace = c1St.trace ++ ext ∧
      depthInvokes 0 ext =
        [TEntry.invoke 0 1 [], TEntry.invoke 0 2 [], TEntry.invoke 0 3 [],
         TEntry.invoke 0 4 [], TEntry.invoke 0 5 []] := by
  refine ⟨rfl, ?_⟩
  obtain ⟨ext, h1, h2⟩ :=
    c1_emit_snapshot_round 64 0 c1St "evt" [] c1Res.1 c1Res.2 rfl
  exact ⟨ext, h1, by rw [h2]; rfl⟩

/-- Claim C2: a listener whose invocation throws is caught by `announce`
(via `_.attempt`), the internal `error` event is emitted with the payload
`{event, callback, error}` (the `error` field being the attempt-wrapped
thrown value), the announce step itself returns normally — the failure is
never re-raised — and the emission round then continues with the remaining
listeners of the same snapshot.  (That every remaining snapshot member is
still invoked is the depth-`d` round property proved for C1.) -/
theorem c2_error_isolation (g d : Nat) (st st1 : BState) (e : String)
    (args : List JsVal) (c : Nat) (v : JsVal)
    (hthrow : run g d st (Task.tInvoke c args) = some (st1, Outcome.thr v))
    (hnoerr : st1.registry "error" = []) :
    run (g + 3) d st (Task.tAnnOne e args c) =
      some (pushT st1 (TEntry.emitE (d + 1) "error"
        [JsVal.vPayload e c (wrapE v)]), Outcome.ret JsVal.vUndef) ∧
    ∀ rest, run (g + 4) d st (Task.tAnnList e args (c :: rest)) =
      run (g + 3) d
        (pushT st1 (TEntry.emitE (d + 1) "error"
          [JsVal.vPayload e c (wrapE v)]))
        (Task.tAnnList e args rest) := by
  have hthrow2 : run (g + 2) d st (Task.tInvoke c args) =
      some (st1, Outcome.thr v) := run_mono_le (by omega) hthrow
  have hmain : run (g + 3) d st (Task.tAnnOne e args c) =
      some (pushT st1 (TEntry.emitE (d + 1) "error"
        [JsVal.vPayload e c (wrapE v)]), Outcome.ret JsVal.vUndef) := by
    have hf : (g : Nat) + 3 = (g + 2) + 1 := rfl
    rw [hf, runEq_annOne, hthrow2]
    simp only [attemptErr]
    rw [emit_empty g (d + 1) st1 "error" [JsVal.vPayload e c (wrapE v)]
      hnoerr]
  refine ⟨hmain, ?_⟩
  intro rest
  have hf : (g : Nat) + 4 = (g + 3) + 1 := rfl
  rw [hf, runEq_annList_cons, hmain]

/-- Witness for C2: listener `1` of event `"e2"` throws `new Error("bad")`;
announcing it emits the `error` event carrying
`{event: "e2", callback: f1, error}` and returns normally. -/
theorem c2_witness :
    run 8 0 c2St (Task.tInvoke 1 []) =
      some (c2Inner.1, Outcome.thr (JsVal.vErr (JsVal.vStr "bad"))) ∧
    run 11 0 c2St (Task.tAnnOne "e2" [] 1) =
      some (pushT c2Inner.1 (TEntry.emitE 1 "error"
        [JsVal.vPayload "e2" 1 (wrapE (JsVal.vErr (JsVal.vStr "bad")))]),
        Outcome.ret JsVal.vUndef) := by
  have h1 : run 8 0 c2St (Task.tInvoke 1 []) =
      some (c2Inner.1, Outcome.thr (JsVal.vErr (JsVal.vStr "bad"))) := rfl
  exact ⟨h1,
    (c2_error_isolation 8 0 c2St c2Inner.1 "e2" [] 1
      (JsVal.vErr (JsVal.vStr "bad")) h1 rfl).1⟩

/-- Claim C4: `emit` invokes each currently registered listener exactly
once, in registration order, passing the emitted arguments (the broker
instance as `this` is implicit in this one-broker embedding: `announce`
invokes `bind(callback, this, ...args)`).  Order and arguments are the
round-snapshot equality; exactly-once follows for duplicate-free lists. -/
theorem c4_emit_order_exactly_once (fuel d : Nat) (st : BState) (e : String)
    (args : List JsVal) (st2 : BState) (out : Outcome)
    (h : run fuel d st (Task.tEmit e args) = some (st2, out))
    (hnd : (st.registry e).Nodup) :
    ∃ ext, st2.trace = st.trace ++ ext ∧
      depthInvokes d ext =
        (st.registry e).map (fun c => TEntry.invoke d c args) ∧
      ∀ c ∈ st.registry e,
        (depthInvokes d ext).count (TEntry.invoke d c args) = 1 := by
  obtain ⟨ext, h1, h2⟩ := run_emit_round fuel d st e args st2 out h
  refine ⟨ext, h1, h2, ?_⟩
  intro c hc
  rw [h2]
  have hinj : Function.Injective (fun c => TEntry.invoke d c args) := by
    intro a b hab
    injection hab with h1 h2 h3
  rw [List.count_map_of_injective _ _ hinj]
  exact List.count_eq_one_of_mem hnd hc

/-- Witness for C4: five distinct no-op listeners registered in order
`1..5`, emitted with one argument; the round invokes them in exactly that
order with that argument, each exactly once. -/
theorem c4_witness :
    run 64 0 c4St (Task.tEmit "evt" [JsVal.vNum 7]) = some c4Res ∧
    (c4St.registry "evt").Nodup ∧
    ∃ ext, c4Res.1.trace = c4St.trace ++ ext ∧
      depthInvokes 0 ext =
        [TEntry.invoke 0 1 [JsVal.vNum 7], TEntry.invoke 0 2 [JsVal.vNum 7],
         TEntry.invoke 0 3 [JsVal.vNum 7], TEntry.invoke 0 4 [JsVal.vNum 7],
         TEntry.invoke 0 5 [JsVal.vNum 7]] ∧
      (depthInvokes 0 ext).count (TEntry.invoke 0 3 [JsVal.vNum 7]) = 1 := by
  refine ⟨rfl, by decide, ?_⟩
  obtain ⟨ext, h1, h2, h3⟩ :=
    c4_emit_order_exactly_once 64 0 c4St "evt" [JsVal.vNum 7] c4Res.1 c4Res.2
      rfl (by decide)
  refine ⟨ext, h1, by rw [h2]; rfl, h3 3 (by decide)⟩

/-- Helper: `runSt` (a public operation's post-validation core) preserves
the registry invariant. -/
theorem runSt_nodup (fuel d : Nat) (st : BState) (t : Task) (st2 : BState)
    (h : runSt fuel d st t = some st2) (hr : RegNodup st.registry) :
    RegNodup st2.registry := by
  rw [runSt] at h
  obtain ⟨p, hp, hq⟩ := Option.map_eq_some'.mp h
  rw [← hq]
  exact run_nodup fuel d st t p.1 p.2 hp hr

/-- Claim C5: no listener identity ever occurs more than once in an
event's list, and every operation — any interpreter task, and each of the
five public operations `subscribe`, `subscribeOnce`, `unsubscribe`,
`removeAllListeners` and `emit` — preserves this invariant (registration
installs `uniq(concat(listeners, callback))`, removal installs
`without(listeners, callback)`); moreover duplicate registration collapses:
`subscribe(e, f); subscribe(e, f); emit(e)` leaves `f` listed once and
invokes `f` exactly once. -/
theorem c5_no_duplicate_listeners :
    (∀ fuel d st t st2 out, run fuel d st t = some (st2, out) →
       RegNodup st.registry → RegNodup st2.registry) ∧
    (∀ fuel st ev cb st2, onOp fuel st ev cb = Except.ok (some st2) →
       RegNodup st.registry → RegNodup st2.registry) ∧
    (∀ fuel st ev cb st2, oneOp fuel st ev cb = Except.ok (some st2) →
       RegNodup st.registry → RegNodup st2.registry) ∧
    (∀ fuel st ev cb st2, offOp fuel st ev cb = Except.ok (some st2) →
       RegNodup st.registry → RegNodup st2.registry) ∧
    (∀ fuel st ev st2, removeAllOp fuel st ev = Except.ok (some st2) →
       RegNodup st.registry → RegNodup st2.registry) ∧
    (∀ fuel st ev args st2, emitOp fuel st ev args = Except.ok (some st2) →
       RegNodup st.registry → RegNodup st2.registry) ∧
    (onOp 20 c5St (JsVal.vStr "evt") (JsVal.vFun 1) = Except.ok (some c5S1) ∧
     onOp 20 c5S1 (JsVal.vStr "evt") (JsVal.vFun 1) = Except.ok (some c5S2) ∧
     emitOp 20 c5S2 (JsVal.vStr "evt") [] = Except.ok (some c5S3) ∧
     c5S2.registry "evt" = [1] ∧
     invokesOf 1 c5S3.trace = [TEntry.invoke 0 1 []]) := by
  refine ⟨fun fuel d st t st2 out h hr => run_nodup fuel d st t st2 out h hr,
    ?_, ?_, ?_, ?_, ?_, rfl, rfl, rfl, by decide, by decide⟩
  · intro fuel st ev cb st2 h hr
    rw [onOp] at h
    split at h
    · split at h
      · injection h with h2
        exact runSt_nodup _ _ _ _ _ h2 hr
      · exact Except.noConfusion h
    · exact Except.noConfusion h
  · intro fuel st ev cb st2 h hr
    rw [oneOp] at h
    split at h
    · injection h with h2
      exact runSt_nodup _ _ _ _ _ h2 hr
    · exact Except.noConfusion h
  · intro fuel st ev cb st2 h hr
    rw [offOp] at h
    split at h
    · split at h
      · injection h with h2
        exact runSt_nodup _ _ _ _ _ h2 hr
      · exact Except.noConfusion h
    · exact Except.noConfusion h
  · intro fuel st ev st2 h hr
    rw [removeAllOp] at h
    split at h
    · injection h with h2
      exact runSt_nodup _ _ _ _ _ h2 hr
    · exact Except.noConfusion h
  · intro fuel st ev args st2 h hr
    rw [emitOp] at h
    split at h
    · injection h with h2
      exact runSt_nodup _ _ _ _ _ h2 hr
    · exact Except.noConfusion h

/-- Witness for C5: the invariant conjunct applied at the concrete
duplicate-registration scenario (empty registry is trivially
duplicate-free, and it is preserved by the first `subscribe`). -/
theorem c5_witness : RegNodup c5S1.registry :=
  c5_no_duplicate_listeners.2.1 20 c5St (JsVal.vStr "evt") (JsVal.vFun 1)
    c5S1 rfl (fun _ => List.nodup_nil)

/-- Claim C6 is contradicted by the code for `subscribeOnce`: `one` never
validates its `callback` argument — it only registers the always-callable
`single` wrapper through `on` — so `subscribeOnce('evt', null)` does *not*
raise the InvalidArgument TypeError its own jsdoc (`@throws {TypeError}
Parameter \`callback\` must be a function.`) promises.  Instead it
returns successfully, registers the wrapper (state mutated), and fires
`listenerAdded`.  This theorem evaluates the code at that failing input. -/
theorem c6_subscribeOnce_skips_validation :
    oneOp 32 c6St (JsVal.vStr "evt") JsVal.vUndef = Except.ok (some c6S1) ∧
    c6S1.registry "evt" = [1] ∧
    emitsOf "listenerAdded" c6S1.trace =
      [TEntry.emitE 0 "listenerAdded" [JsVal.vPayload2 "evt" 1]] := by
  exact ⟨rfl, by decide, by decide⟩

/-- Claim C7: `unsubscribe(e, f)` emits `listenerRemoved` with
`{event, callback}` exactly when `f` was present in `e`'s list (first
conjunct: an absent `f` makes `off` a complete no-op — the state is
returned unchanged, so the registry is untouched and no event at all is
recorded); when present, the updated list `without(listeners, f)` is
installed and exactly one `listenerRemoved` emission is recorded (stated
under a benign environment with no `listenerRemoved` listeners, so the
lifecycle emission itself invokes nobody). -/
theorem c7_off_removed_iff (fuel d : Nat) (st : BState) (e : String)
    (c : Nat) :
    (c ∉ st.registry e →
      run (fuel + 1) d st (Task.tOff e c) =
        some (st, Outcome.ret JsVal.vUndef)) ∧
    (c ∈ st.registry e → st.registry "listenerRemoved" = [] →
      e ≠ "listenerRemoved" →
      run (fuel + 3) d st (Task.tOff e c) =
        some ({ st with
                  registry := setReg st.registry e
                    (without (st.registry e) c),
                  trace := st.trace ++ [TEntry.emitE d "listenerRemoved"
                    [JsVal.vPayload2 e c]] },
              Outcome.ret JsVal.vUndef)) :=
  ⟨fun h => off_not_mem fuel d st e c h,
   fun h1 h2 h3 => off_mem fuel d st e c h1 h2 h3⟩

/-- Witness for C7: with `[1, 2]` registered for `"evt"`, removing the
absent listener `7` is a silent no-op, and removing the present listener
`1` installs `[2]` and records exactly one `listenerRemoved` emission. -/
theorem c7_witness :
    run 5 0 c7St (Task.tOff "evt" 7) =
      some (c7St, Outcome.ret JsVal.vUndef) ∧
    run 7 0 c7St (Task.tOff "evt" 1) =
      some ({ c7St with
                registry := setReg c7St.registry "evt"
                  (without (c7St.registry "evt") 1),
                trace := c7St.trace ++ [TEntry.emitE 0 "listenerRemoved"
                  [JsVal.vPayload2 "evt" 1]] },
            Outcome.ret JsVal.vUndef) :=
  ⟨(c7_off_removed_iff 4 0 c7St "evt" 7).1 (by decide),
   (c7_off_removed_iff 4 0 c7St "evt" 1).2 (by decide) rfl (by decide)⟩

/-- Claim C8: `removeAllListeners(e)` on an event with `N` currently
registered (duplicate-free) listeners removes them one at a time — the
trace gains exactly one `listenerRemoved` emission per listener, `N` in
total, in registration order, not one batched event — the event's list is
empty afterwards, and a subsequent `emit(e)` invokes zero listeners (it
only records its own emission entry and changes nothing).  Stated under a
benign environment with no `listenerRemoved` listeners. -/
theorem c8_removeAll_one_event_each (fuel d : Nat) (st : BState)
    (e : String) (st2 : BState) (out : Outcome)
    (hnd : (st.registry e).Nodup)
    (hlr : st.registry "listenerRemoved" = [])
    (hne : e ≠ "listenerRemoved")
    (h : run fuel d st (Task.tRemoveAll e) = some (st2, out)) :
    st2.registry e = [] ∧
    st2.trace = st.trace ++ (st.registry e).map
      (fun c => TEntry.emitE d "listenerRemoved" [JsVal.vPayload2 e c]) ∧
    ∀ fuel2 args, run (fuel2 + 2) d st2 (Task.tEmit e args) =
      some (pushT st2 (TEntry.emitE d e args), Outcome.ret JsVal.vUndef) := by
  cases fuel with
  | zero => rw [run_zero] at h; exact Option.noConfusion h
  | succ n =>
    rw [runEq_removeAll] at h
    obtain ⟨r2, t2, -, -, -⟩ :=
      offList_clean (st.registry e) n d st e st2 out rfl hnd hlr hne h
    have hre2 : st2.registry e = [] := by rw [r2, setReg_apply, if_pos rfl]
    exact ⟨hre2, t2, fun fuel2 args => emit_empty fuel2 d st2 e args hre2⟩

/-- Witness for C8: `removeAllListeners('evt')` with listeners `[1, 2]`
fires exactly two `listenerRemoved` emissions, in order, and empties the
list. -/
theorem c8_witness :
    run 20 0 c8St (Task.tRemoveAll "evt") = some c8Res ∧
    c8Res.1.registry "evt" = [] ∧
    c8Res.1.trace = c8St.trace ++
      [TEntry.emitE 0 "listenerRemoved" [JsVal.vPayload2 "evt" 1],
       TEntry.emitE 0 "listenerRemoved" [JsVal.vPayload2 "evt" 2]] := by
  have hp : run 20 0 c8St (Task.tRemoveAll "evt") = some c8Res := rfl
  obtain ⟨h1, h2, -⟩ := c8_removeAll_one_event_each 20 0 c8St "evt"
    c8Res.1 c8Res.2 (by decide) rfl (by decide) hp
  exact ⟨hp, h1, by rw [h2]; rfl⟩

/-- Claim C3 is contradicted by the code: the `single` adapter built by
`one` is `flow(() => callback(...arguments), () => this.off(event, single))`
and `arguments` inside the arrow function is lexically `one`'s own
`(event, callback)` — the compiled `src/index.js` captures it as
`_arguments = arguments` — so on `emit('evt', 'x')` the callback receives
`('evt', callback)`, *not* the emitted argument `'x'`.  The once-semantics
half of the claim does hold: the wrapper removes itself before the emit
returns (the list is empty afterwards) and the callback runs exactly once
across both emits.  This theorem evaluates the code at the failing input
`subscribeOnce('evt', f); emit('evt', 'x'); emit('evt', 'y')`. -/
theorem c3_once_wrapper_wrong_args :
    oneOp 32 c3St (JsVal.vStr "evt") (JsVal.vFun 1) = Except.ok (some c3S1) ∧
    emitOp 32 c3S1 (JsVal.vStr "evt") [JsVal.vStr "x"] =
      Except.ok (some c3S2) ∧
    emitOp 32 c3S2 (JsVal.vStr "evt") [JsVal.vStr "y"] =
      Except.ok (some c3S3) ∧
    invokesOf 1 c3S2.trace =
      [TEntry.invoke 1 1 [JsVal.vStr "evt", JsVal.vFun 1]] ∧
    c3S2.registry "evt" = [] ∧
    invokesOf 1 c3S3.trace =
      [TEntry.invoke 1 1 [JsVal.vStr "evt", JsVal.vFun 1]] := by
  exact ⟨rfl, rfl, rfl, by decide, by decide, by decide⟩

/-- Counterexample to claim C9 as stated: a listener that throws the plain
string `"boom"` (not an Error instance) does **not** have its failure
silently swallowed — lodash `attempt`'s catch clause returns
`isError(e) ? e : new Error(e)`, wrapping the string in an Error, so
`isError` holds and exactly one `error` event is emitted (the claim
predicted none). -/
theorem c9_counterexample :
    run 16 0 c9St (Task.tEmit "evt" []) = some c9Res ∧
    emitsOf "error" c9Res.1.trace =
      [TEntry.emitE 1 "error"
        [JsVal.vPayload "evt" 1 (JsVal.vErr (JsVal.vStr "boom"))]] := by
  exact ⟨rfl, by decide⟩

/-- Claim C9, amended: for every listener invoked during an emission, if
the listener throws a value that is not an Error instance, emission still
continues but the failure is **not** swallowed — `attempt` wraps the value
in an Error (`new Error(e)`) and the `error` event *is* emitted carrying
the wrapped value; and if the listener returns normally with an Error
instance as its return value, the `error` event is emitted carrying that
returned value as if the listener had failed. -/
theorem c9_amended_error_wrapping (g d : Nat) (st st1 : BState) (e : String)
    (args : List JsVal) (c : Nat) :
    (∀ v, run g d st (Task.tInvoke c args) = some (st1, Outcome.thr v) →
      isErrorV v = false → st1.registry "error" = [] →
      run (g + 3) d st (Task.tAnnOne e args c) =
        some (pushT st1 (TEntry.emitE (d + 1) "error"
          [JsVal.vPayload e c (JsVal.vErr v)]), Outcome.ret JsVal.vUndef)) ∧
    (∀ r, run g d st (Task.tInvoke c args) = some (st1, Outcome.ret r) →
      isErrorV r = true → st1.registry "error" = [] →
      run (g + 3) d st (Task.tAnnOne e args c) =
        some (pushT st1 (TEntry.emitE (d + 1) "error"
          [JsVal.vPayload e c r]), Outcome.ret JsVal.vUndef)) := by
  constructor
  · intro v hrun hnotErr hnoerr
    have h2 : run (g + 2) d st (Task.tInvoke c args) =
        some (st1, Outcome.thr v) := run_mono_le (by omega) hrun
    have hf : (g : Nat) + 3 = (g + 2) + 1 := rfl
    rw [hf, runEq_annOne, h2]
    simp only [attemptErr, wrapE, hnotErr, Bool.false_eq_true, if_false]
    rw [emit_empty g (d + 1) st1 "error"
      [JsVal.vPayload e c (JsVal.vErr v)] hnoerr]
  · intro r hrun hisErr hnoerr
    have h2 : run (g + 2) d st (Task.tInvoke c args) =
        some (st1, Outcome.ret r) := run_mono_le (by omega) hrun
    have hf : (g : Nat) + 3 = (g + 2) + 1 := rfl
    rw [hf, runEq_annOne, h2]
    simp only [attemptErr, hisErr, if_true]
    rw [emit_empty g (d + 1) st1 "error" [JsVal.vPayload e c r] hnoerr]

/-- Witness for the amended C9: announcing a listener that throws the
string `"boom"` emits `error` carrying `new Error("boom")`; announcing a
listener that returns `new Error("oops")` emits `error` carrying it. -/
theorem c9_witness :
    run 11 0 c9St (Task.tAnnOne "evt" [] 1) =
      some (pushT c9InnerThr.1 (TEntry.emitE 1 "error"
        [JsVal.vPayload "evt" 1 (JsVal.vErr (JsVal.vStr "boom"))]),
        Outcome.ret JsVal.vUndef) ∧
    run 11 0 c9bSt (Task.tAnnOne "evt" [] 1) =
      some (pushT c9bInner.1 (TEntry.emitE 1 "error"
        [JsVal.vPayload "evt" 1 (JsVal.vErr (JsVal.vStr "oops"))]),
        Outcome.ret JsVal.vUndef) := by
  refine ⟨?_, ?_⟩
  · exact (c9_amended_error_wrapping 8 0 c9St c9InnerThr.1 "evt" [] 1).1
      (JsVal.vStr "boom") rfl rfl rfl
  · exact (c9_amended_error_wrapping 8 0 c9bSt c9bInner.1 "evt" [] 1).2
      (JsVal.vErr (JsVal.vStr "oops")) rfl rfl rfl

/-- Claim C10: if the callback wrapped by `subscribeOnce` throws on its
first invocation, `flow` aborts before the self-removal step, so the
wrapper's outcome is the propagated throw and its resulting state is
exactly the inner call's state — no `off` happens (general conjunct).
Concretely (second conjunct): with a callback that throws on call 0 and
returns on call 1, after `one('evt', f)` and a first `emit` the wrapper is
still registered and the callback ran once; a second `emit` invokes the
callback again, it completes, and the wrapper removes itself; a third
`emit` invokes nothing further. -/
theorem c10_once_throw_keeps_wrapper :
    (∀ (fuel d : Nat) (st st2 : BState) (c cbId : Nat) (args : List JsVal)
       (ev : String) (v : JsVal),
       st.env c = some (Behavior.onceWrapper ev (JsVal.vFun cbId)) →
       run fuel (d + 1) (invokedSt st d c args)
         (Task.tInvoke cbId [JsVal.vStr ev, JsVal.vFun cbId]) =
           some (st2, Outcome.thr v) →
       run (fuel + 1) d st (Task.tInvoke c args) =
         some (st2, Outcome.thr v)) ∧
    (oneOp 40 c10St (JsVal.vStr "evt") (JsVal.vFun 1) =
       Except.ok (some c10S1) ∧
     c10S1.registry "evt" = [2] ∧
     emitOp 40 c10S1 (JsVal.vStr "evt") [] = Except.ok (some c10S2) ∧
     c10S2.registry "evt" = [2] ∧
     invokesOf 1 c10S2.trace =
       [TEntry.invoke 1 1 [JsVal.vStr "evt", JsVal.vFun 1]] ∧
     emitOp 40 c10S2 (JsVal.vStr "evt") [] = Except.ok (some c10S3) ∧
     c10S3.registry "evt" = [] ∧
     invokesOf 1 c10S3.trace =
       [TEntry.invoke 1 1 [JsVal.vStr "evt", JsVal.vFun 1],
        TEntry.invoke 1 1 [JsVal.vStr "evt", JsVal.vFun 1]] ∧
     emitOp 40 c10S3 (JsVal.vStr "evt") [] = Except.ok (some c10S4) ∧
     invokesOf 1 c10S4.trace =
       [TEntry.invoke 1 1 [JsVal.vStr "evt", JsVal.vFun 1],
        TEntry.invoke 1 1 [JsVal.vStr "evt", JsVal.vFun 1]]) := by
  constructor
  · intro fuel d st st2 c cbId args ev v henv hinner
    simp only [runEq_invoke, henv, hinner]
  · exact ⟨rfl, by decide, rfl, by decide, by decide, rfl, by decide,
      by decide, rfl, by decide⟩

/-- Witness for C10's general conjunct: in the concrete scenario, the
wrapper `2` over the throwing callback `1` propagates the throw and ends in
exactly the inner call's state. -/
theorem c10_witness :
    run 11 0 c10S1 (Task.tInvoke 2 []) =
      some (c10Inner.1, Outcome.thr (JsVal.vStr "first-call-fails")) :=
  c10_once_throw_keeps_wrapper.1 10 0 c10S1 c10Inner.1 2 1 [] "evt"
    (JsVal.vStr "first-call-fails") rfl rfl

end CycleEvents
